import Mathlib

/-!
# RuleGo: shared node pool, per-tenant engine registry and engine service

A shallow embedding of `node_pool/node_pool.go` and of the tenant registry and
the engine service of `examples/server/internal/service/engine.go`.

Conventions of the embedding

* A Go `error` is the record `Error` holding its message; `Result α` is a Go
  `(α, error)` result.
* Go maps and `sync.Map` are association lists (`KVMap`); the order of the list
  is the order in which a `Range` would visit the keys.  Go gives no promise
  about that order, so every statement below holds for every order.
* Values built by packages that are outside this development (`engine`,
  `endpoint`, `types`) are records of the answers their methods give to the
  pool: the pool never looks at anything else.
* Calls that leave the pool (component factories, teardown) are appended, in
  program order, to the ghost field `events` of the pool; the calls that leave
  the engine service (execution layer, persistence, recorder, observers) to its
  ghost field `effects`.
* A reading of the clock is an argument of the operation that takes it.
* `Option` around a result stands for a Go run-time panic (`none`).
-/

set_option linter.dupNamespace false

namespace rulego

/-- A Go `error` value, identified by its message. -/
structure Error where
  msg : String
deriving DecidableEq, Repr

/-- A Go `(value, error)` pair. -/
inductive Result (α : Type) where
  | ok (v : α)
  | err (e : Error)
deriving DecidableEq, Repr

/-- Association list standing for a Go `map[string]V` or a `sync.Map`. -/
abbrev KVMap (V : Type) := List (String × V)

namespace KVMap

/-- Lookup: `m.Load(key)` of `sync.Map`, `m[key]` of a Go map. -/
def Load {V : Type} : KVMap V → String → Option V
  | [], _ => none
  | (k, v) :: m, key => if k = key then some v else Load m key

/-- Assignment: `m.Store(key, v)` of `sync.Map`, `m[key] = v` of a Go map. -/
def Store {V : Type} : KVMap V → String → V → KVMap V
  | [], key, v => [(key, v)]
  | (k, x) :: m, key, v => if k = key then (key, v) :: m else (k, x) :: Store m key v

/-- Removal: `m.Delete(key)` of `sync.Map`, `delete(m, key)` of a Go map. -/
def Delete {V : Type} (m : KVMap V) (key : String) : KVMap V :=
  m.filter (fun p => decide (p.1 ≠ key))

/-- The keys of the map, in visiting order. -/
def keys {V : Type} (m : KVMap V) : List String := m.map Prod.fst

end KVMap

namespace types

/-- The `types.RuleNodeId` returned by `GetNodeId()`. -/
structure RuleNodeId where
  Id : String
  Type_ : Nat
deriving DecidableEq, Repr

/-- The declaration `types.RuleNode` of a component: the pool reads `Id`. -/
structure RuleNode where
  Id : String
  Type_ : String
  Name : String
  Debug : Bool
  Configuration : List (String × String)
deriving DecidableEq, Repr

/-- The declaration `types.EndpointDsl`: a `RuleNode` with processors and routers. -/
structure EndpointDsl where
  RuleNode : RuleNode
  Processors : List String
  Routers : List String
deriving DecidableEq, Repr

/-- The header `types.RuleChainBaseInfo` of a rule chain. -/
structure RuleChainBaseInfo where
  ID : String
  Name : String
  DebugMode : Bool
  Root : Bool
  Disabled : Bool
  Configuration : List (String × String)
  AdditionalInfo : Option (List (String × String))
deriving DecidableEq, Repr

/-- The body `types.RuleMetadata`: slices of pointers, `none` is a nil pointer. -/
structure RuleMetadata where
  Endpoints : List (Option EndpointDsl)
  Nodes : List (Option RuleNode)
deriving DecidableEq, Repr

/-- The rule-chain definition `types.RuleChain`. -/
structure RuleChain where
  RuleChain : RuleChainBaseInfo
  Metadata : RuleMetadata
deriving DecidableEq, Repr

/-- What a component answers through the interface `types.SharedNode`. -/
structure SharedNode where
  Type_ : String
  GetInstance : Result String
deriving DecidableEq, Repr

/-- A built component: `SharedNode` is the outcome of the type assertion
`.(types.SharedNode)`, `none` when the component lacks the capability. -/
structure Node where
  SharedNode : Option SharedNode
deriving DecidableEq, Repr

end types

namespace engine

/-- What a `*engine.RuleNodeCtx` answers to the pool. -/
structure RuleNodeCtx where
  Node : types.Node
  GetNodeId : types.RuleNodeId
  DSL : String
deriving DecidableEq, Repr

end engine

namespace endpoint

/-- What a `*endpoint.DynamicEndpoint` answers to the pool. -/
structure DynamicEndpoint where
  Endpoint : types.Node
  Target : types.Node
  GetNodeId : types.RuleNodeId
  DSL : String
deriving DecidableEq, Repr

end endpoint

namespace node_pool

/-- The variable `ErrNotImplemented = errors.New("not SharedNode")`. -/
def ErrNotImplemented : Error := ⟨"not SharedNode"⟩

/-- The struct `sharedNodeCtx`; `none` is a nil pointer. -/
structure sharedNodeCtx where
  RuleNodeCtx : Option engine.RuleNodeCtx
  EndpointCtx : Option endpoint.DynamicEndpoint
  IsEndpoint : Bool
deriving DecidableEq, Repr

/-- The constructor `newSharedNodeCtx(nodeCtx, endpointCtx)`. -/
def newSharedNodeCtx (nodeCtx : Option engine.RuleNodeCtx)
    (endpointCtx : Option endpoint.DynamicEndpoint) : sharedNodeCtx :=
  { RuleNodeCtx := nodeCtx, EndpointCtx := endpointCtx, IsEndpoint := false }

/-- Calls that leave the pool, and the removal of a key, in program order. -/
inductive Event where
  | InitNetResourceNodeCtx (d : types.RuleNode)
  | NewFromDef (d : types.EndpointDsl)
  | EndpointDestroy (e : endpoint.DynamicEndpoint)
  | RuleNodeDestroy (c : Option engine.RuleNodeCtx)
  | EntriesDelete (key : String)
deriving DecidableEq, Repr

/-- Whether the event is a teardown call, made by `Destroy`. -/
def Event.isTeardown : Event → Bool
  | .EndpointDestroy _ => true
  | .RuleNodeDestroy _ => true
  | _ => false

namespace sharedNodeCtx

/-- Method `GetInstance`: `none` is the panic of a failed type assertion or of a
nil pointer. -/
def GetInstance (n : sharedNodeCtx) : Option (Result String) :=
  match n.EndpointCtx with
  | some e => e.Endpoint.SharedNode.map (fun s => s.GetInstance)
  | none =>
    match n.RuleNodeCtx with
    | some c => c.Node.SharedNode.map (fun s => s.GetInstance)
    | none => none

/-- Method `DSL`. -/
def DSL (n : sharedNodeCtx) : Option String :=
  match n.EndpointCtx with
  | some e => some e.DSL
  | none => n.RuleNodeCtx.map (fun c => c.DSL)

/-- Method `GetNodeId`. -/
def GetNodeId (n : sharedNodeCtx) : Option types.RuleNodeId :=
  match n.EndpointCtx with
  | some e => some e.GetNodeId
  | none => n.RuleNodeCtx.map (fun c => c.GetNodeId)

/-- Method `SharedNode`. -/
def SharedNode (n : sharedNodeCtx) : Option types.SharedNode :=
  match n.EndpointCtx with
  | some e => e.Target.SharedNode
  | none =>
    match n.RuleNodeCtx with
    | some c => c.Node.SharedNode
    | none => none

/-- Method `Destroy`: the teardown call it makes. -/
def Destroy (n : sharedNodeCtx) : Event :=
  match n.EndpointCtx with
  | some e => Event.EndpointDestroy e
  | none => Event.RuleNodeDestroy n.RuleNodeCtx

end sharedNodeCtx

/-- The collaborators of the pool: the parser of `n.Config` and the two
component factories.  A factory may answer differently from call to call, so it
is given the events that came before. -/
structure Env where
  DecodeRuleChain : String → Result types.RuleChain
  DecodeRuleNode : String → Result types.RuleNode
  InitNetResourceNodeCtx : List Event → types.RuleNode → Result engine.RuleNodeCtx
  NewFromDef : List Event → types.EndpointDsl → Result endpoint.DynamicEndpoint

/-- The struct `NodePool`: `entries` maps a resource id to its `sharedNodeCtx`;
`events` is the ghost trace. -/
structure NodePool where
  entries : KVMap sharedNodeCtx
  events : List Event
deriving DecidableEq, Repr

namespace NodePool

/-- The pool made by `NewNodePool`. -/
def NewNodePool : NodePool := { entries := [], events := [] }

/-- Method `NewFromEndpoint`. -/
def NewFromEndpoint (env : Env) (n : NodePool) (d : types.EndpointDsl) :
    Option (NodePool × Result sharedNodeCtx) :=
  match KVMap.Load n.entries d.RuleNode.Id with
  | some _ => some (n, .err ⟨"duplicate node id:" ++ d.RuleNode.Id⟩)
  | none =>
    let arg : types.EndpointDsl := { RuleNode := d.RuleNode, Processors := [], Routers := [] }
    let n1 : NodePool := { n with events := n.events ++ [Event.NewFromDef arg] }
    match env.NewFromDef n.events arg with
    | .ok ctx =>
      match ctx.Target.SharedNode with
      | none => some (n1, .err ErrNotImplemented)
      | some _ =>
        let rCtx := newSharedNodeCtx none (some ctx)
        match rCtx.GetNodeId with
        | none => none
        | some nodeId =>
          some ({ n1 with entries := KVMap.Store n1.entries nodeId.Id rCtx }, .ok rCtx)
    | .err e => some (n1, .err e)

/-- Method `NewFromRuleNode`. -/
def NewFromRuleNode (env : Env) (n : NodePool) (d : types.RuleNode) :
    Option (NodePool × Result sharedNodeCtx) :=
  match KVMap.Load n.entries d.Id with
  | some _ => some (n, .err ⟨"duplicate node id:" ++ d.Id⟩)
  | none =>
    let n1 : NodePool := { n with events := n.events ++ [Event.InitNetResourceNodeCtx d] }
    match env.InitNetResourceNodeCtx n.events d with
    | .ok ctx =>
      match ctx.Node.SharedNode with
      | none => some (n1, .err ErrNotImplemented)
      | some _ =>
        let rCtx := newSharedNodeCtx (some ctx) none
        match rCtx.GetNodeId with
        | none => none
        | some nodeId =>
          some ({ n1 with entries := KVMap.Store n1.entries nodeId.Id rCtx }, .ok rCtx)
    | .err e => some (n1, .err e)

/-- Method `Get`. -/
def Get (n : NodePool) (id : String) : Option sharedNodeCtx × Bool :=
  match KVMap.Load n.entries id with
  | some v => (some v, true)
  | none => (none, false)

/-- Method `GetInstance`. -/
def GetInstance (n : NodePool) (id : String) : Option (Result String) :=
  match n.Get id with
  | (some ctx, true) => ctx.GetInstance
  | _ => some (.err ⟨"node resource not found id=" ++ id⟩)

/-- Method `Del`. -/
def Del (n : NodePool) (id : String) : NodePool :=
  match KVMap.Load n.entries id with
  | some v =>
    { entries := KVMap.Delete n.entries id,
      events := n.events ++ [v.Destroy, Event.EntriesDelete id] }
  | none => n

/-- Method `Stop`: `Range` hands every key present to the callback, which
deletes that key only. -/
def Stop (n : NodePool) : NodePool :=
  (KVMap.keys n.entries).foldl Del n

/-- Method `GetAll`. -/
def GetAll (n : NodePool) : List sharedNodeCtx :=
  n.entries.map Prod.snd

/-- The first loop of `LoadFromRuleChain`, over `def.Metadata.Endpoints`: the
error of the attempt that failed, if one did. -/
def loadEndpoints (env : Env) (n : NodePool) :
    List (Option types.EndpointDsl) → Option (NodePool × Option Error)
  | [] => some (n, none)
  | none :: rest => loadEndpoints env n rest
  | some item :: rest =>
    match NewFromEndpoint env n item with
    | none => none
    | some (n1, .err e) => some (n1, some e)
    | some (n1, .ok _) => loadEndpoints env n1 rest

/-- The second loop of `LoadFromRuleChain`, over `def.Metadata.Nodes`. -/
def loadNodes (env : Env) (n : NodePool) :
    List (Option types.RuleNode) → Option (NodePool × Option Error)
  | [] => some (n, none)
  | none :: rest => loadNodes env n rest
  | some item :: rest =>
    match NewFromRuleNode env n item with
    | none => none
    | some (n1, .err e) => some (n1, some e)
    | some (n1, .ok _) => loadNodes env n1 rest

/-- Method `LoadFromRuleChain`; on success the value returned is the pool. -/
def LoadFromRuleChain (env : Env) (n : NodePool) (d : types.RuleChain) :
    Option (NodePool × Result NodePool) :=
  match loadEndpoints env n d.Metadata.Endpoints with
  | none => none
  | some (n1, some e) => some (n1, .err e)
  | some (n1, none) =>
    match loadNodes env n1 d.Metadata.Nodes with
    | none => none
    | some (n2, some e) => some (n2, .err e)
    | some (n2, none) => some (n2, .ok n2)

/-- Method `Load`. -/
def Load (env : Env) (n : NodePool) (dsl : String) : Option (NodePool × Result NodePool) :=
  match env.DecodeRuleChain dsl with
  | .err e => some (n, .err e)
  | .ok d => LoadFromRuleChain env n d

/-- The callback that `GetAllDef` hands to `Range`, run over the entries still to
visit; `result` is the map built so far. -/
def GetAllDef.visit (env : Env) :
    KVMap sharedNodeCtx → KVMap (List types.RuleNode) →
      Option (KVMap (List types.RuleNode) × Option Error)
  | [], result => some (result, none)
  | (_, ctx) :: rest, result =>
    match ctx.DSL with
    | none => none
    | some dsl =>
      match env.DecodeRuleNode dsl with
      | .err e => some (result, some e)
      | .ok d =>
        match ctx.SharedNode with
        | none => none
        | some sn =>
          match KVMap.Load result sn.Type_ with
          | none => GetAllDef.visit env rest (KVMap.Store result sn.Type_ [d])
          | some item =>
            -- `item = append(item, &def)` assigns the local variable only
            let _item := item ++ [d]
            GetAllDef.visit env rest result

/-- Method `GetAllDef`: the map and the error it returns together. -/
def GetAllDef (env : Env) (n : NodePool) :
    Option (KVMap (List types.RuleNode) × Option Error) :=
  GetAllDef.visit env n.entries []

end NodePool

/-- The number of definitions that a map returned by `GetAllDef` holds, over
all its groups. -/
def defCount (m : KVMap (List types.RuleNode)) : Nat :=
  (m.map (fun g => g.2.length)).sum

/-- The entry can be listed by `GetAllDef`: its DSL is there to read, the parser
of the pool decodes it, and the component is a `SharedNode`. -/
def Decodable (env : Env) (ctx : sharedNodeCtx) : Bool :=
  match ctx.DSL with
  | none => false
  | some dsl =>
    match env.DecodeRuleNode dsl with
    | .err _ => false
    | .ok _ => ctx.SharedNode.isSome

/-- A request to register a shared resource: the argument of `NewFromEndpoint`
or of `NewFromRuleNode`. -/
inductive Registration where
  | endpoint (d : types.EndpointDsl)
  | node (d : types.RuleNode)
deriving DecidableEq, Repr

/-- The id of the definition passed in (`def.Id`). -/
def Registration.Id : Registration → String
  | .endpoint d => d.RuleNode.Id
  | .node d => d.Id

/-- The factory call that a registration makes once its id passed the duplicate
check. -/
def Registration.factoryCall : Registration → Event
  | .endpoint d =>
    Event.NewFromDef { RuleNode := d.RuleNode, Processors := [], Routers := [] }
  | .node d => Event.InitNetResourceNodeCtx d

/-- What the factory answers to a registration, after the events `tr`: the error
it returns, or the entry that `newSharedNodeCtx` wraps around the built context
together with the outcome of the capability check (`Target()` of an endpoint,
`Node` of a rule node). -/
def Registration.build (env : Env) (tr : List Event) :
    Registration → Result (sharedNodeCtx × types.RuleNodeId × Option types.SharedNode)
  | .endpoint d =>
    match env.NewFromDef tr { RuleNode := d.RuleNode, Processors := [], Routers := [] } with
    | .err e => .err e
    | .ok ctx => .ok (newSharedNodeCtx none (some ctx), ctx.GetNodeId, ctx.Target.SharedNode)
  | .node d =>
    match env.InitNetResourceNodeCtx tr d with
    | .err e => .err e
    | .ok ctx => .ok (newSharedNodeCtx (some ctx) none, ctx.GetNodeId, ctx.Node.SharedNode)

/-- Registration through the method that takes this kind of definition. -/
def NodePool.register (env : Env) (n : NodePool) :
    Registration → Option (NodePool × Result sharedNodeCtx)
  | .endpoint d => NodePool.NewFromEndpoint env n d
  | .node d => NodePool.NewFromRuleNode env n d

/-- The registrations that the spec has `Load` attempt, in its order: the
endpoint declarations that are not nil, then the node declarations that are not
nil, each kind in list order. -/
def attempts (d : types.RuleChain) : List Registration :=
  (d.Metadata.Endpoints.filterMap id).map Registration.endpoint ++
    (d.Metadata.Nodes.filterMap id).map Registration.node

/-- Registration of a list of declarations as the spec words it: one attempt
after the other, stopping at the first that fails and reporting its error, with
no rollback of what was registered before. -/
def NodePool.registerAll (env : Env) (n : NodePool) :
    List Registration → Option (NodePool × Option Error)
  | [] => some (n, none)
  | a :: rest =>
    match n.register env a with
    | none => none
    | some (n1, .err e) => some (n1, some e)
    | some (n1, .ok _) => NodePool.registerAll env n1 rest

/-- The value returned with the pool `p` once the attempts are over. -/
def NodePool.loadResult : NodePool × Option Error → NodePool × Result NodePool
  | (p, none) => (p, .ok p)
  | (p, some e) => (p, .err e)

/-- A sample set of collaborators: the parser fails on the document `"bad"`; the
factories fail on type `"unknown"`, build a component without the shared
capability for type `"log"`, and a shared one otherwise. -/
def sampleEnv : Env where
  DecodeRuleChain := fun dsl =>
    if dsl = "bad" then .err ⟨"unexpected end of JSON input"⟩
    else .ok { RuleChain := ⟨dsl, dsl, false, true, false, [], none⟩,
               Metadata := ⟨[], [some ⟨dsl, "mqttClient", dsl, false, []⟩]⟩ }
  DecodeRuleNode := fun dsl =>
    if dsl = "bad" then .err ⟨"unexpected end of JSON input"⟩
    else .ok ⟨dsl, "mqttClient", dsl, false, []⟩
  InitNetResourceNodeCtx := fun tr d =>
    if d.Type_ = "unknown" then .err ⟨"component not found"⟩
    else .ok { Node := ⟨if d.Type_ = "log" then none
                        else some ⟨d.Type_, .ok (d.Id ++ "#" ++ toString tr.length)⟩⟩,
               GetNodeId := ⟨d.Id, 1⟩,
               DSL := d.Id }
  NewFromDef := fun tr d =>
    if d.RuleNode.Type_ = "unknown" then .err ⟨"component not found"⟩
    else .ok { Endpoint := ⟨none⟩,
               Target := ⟨if d.RuleNode.Type_ = "log" then none
                          else some ⟨d.RuleNode.Type_,
                                     .ok (d.RuleNode.Id ++ "#" ++ toString tr.length)⟩⟩,
               GetNodeId := ⟨d.RuleNode.Id, 0⟩,
               DSL := d.RuleNode.Id }

/-- A sample node definition with the given id and component type. -/
def sampleNode (id type : String) : types.RuleNode := ⟨id, type, id, false, []⟩

/-- A sample endpoint definition with the given id and component type. -/
def sampleEndpoint (id type : String) : types.EndpointDsl :=
  { RuleNode := sampleNode id type, Processors := ["p"], Routers := ["r"] }

/-- A sample entry wrapping a shared rule node with the given id, built as the
`k`-th factory call. -/
def sampleEntry (id : String) (k : Nat) : sharedNodeCtx :=
  newSharedNodeCtx
    (some { Node := ⟨some ⟨"mqttClient", .ok (id ++ "#" ++ toString k)⟩⟩,
            GetNodeId := ⟨id, 1⟩,
            DSL := id })
    none

/-- A sample entry wrapping the shared endpoint `"ws1"`, built as the second
factory call. -/
def sampleWs : sharedNodeCtx :=
  newSharedNodeCtx none
    (some { Endpoint := ⟨none⟩,
            Target := ⟨some ⟨"ws", .ok "ws1#1"⟩⟩,
            GetNodeId := ⟨"ws1", 0⟩,
            DSL := "ws1" })

/-- A sample pool holding the single entry `"db1"`. -/
def samplePool : NodePool :=
  { entries := [("db1", sampleEntry "db1" 0)],
    events := [Event.InitNetResourceNodeCtx (sampleNode "db1" "mqttClient")] }

/-- The sample pool after the endpoint `"ws1"` was registered too. -/
def samplePoolWs : NodePool :=
  { entries := [("db1", sampleEntry "db1" 0), ("ws1", sampleWs)],
    events := [Event.InitNetResourceNodeCtx (sampleNode "db1" "mqttClient"),
               Event.NewFromDef ⟨sampleNode "ws1" "ws", [], []⟩] }

/-- A sample pool with two entries of the same component type. -/
def samplePoolTwo : NodePool :=
  { entries := [("db1", sampleEntry "db1" 0), ("db2", sampleEntry "db2" 1)],
    events := [] }

/-- A sample pool whose second entry holds a DSL that the parser rejects. -/
def samplePoolBad : NodePool :=
  { entries := [("db1", sampleEntry "db1" 0), ("bad", sampleEntry "bad" 1),
                ("db3", sampleEntry "db3" 2)],
    events := [] }

/-- A sample endpoint factory: a context built from a definition without id
reports the server address of its configuration as node id; a definition with an
id gives a context that reports that id. -/
def addrEnv : Env where
  DecodeRuleChain := fun _ => .err ⟨"unexpected end of JSON input"⟩
  DecodeRuleNode := fun _ => .err ⟨"unexpected end of JSON input"⟩
  InitNetResourceNodeCtx := fun _ _ => .err ⟨"component not found"⟩
  NewFromDef := fun tr d =>
    let shared : types.SharedNode :=
      ⟨d.RuleNode.Type_, .ok (d.RuleNode.Name ++ "#" ++ toString tr.length)⟩
    .ok { Endpoint := ⟨some shared⟩,
          Target := ⟨some shared⟩,
          GetNodeId :=
            ⟨if d.RuleNode.Id = "" then (KVMap.Load d.RuleNode.Configuration "server").getD ""
             else d.RuleNode.Id, 0⟩,
          DSL := d.RuleNode.Name }

/-- A sample endpoint definition without id, listening on `":9090"`. -/
def addrEndpoint (name : String) : types.EndpointDsl :=
  { RuleNode := ⟨"", "endpoint/http", name, false, [("server", ":9090")]⟩,
    Processors := [], Routers := [] }

/-- The entry that `addrEnv` builds for `addrEndpoint name` as its `k`-th call. -/
def addrEntry (name : String) (k : Nat) : sharedNodeCtx :=
  newSharedNodeCtx none
    (some { Endpoint := ⟨some ⟨"endpoint/http", .ok (name ++ "#" ++ toString k)⟩⟩,
            Target := ⟨some ⟨"endpoint/http", .ok (name ++ "#" ++ toString k)⟩⟩,
            GetNodeId := ⟨":9090", 0⟩,
            DSL := name })

/-- The pool after the first endpoint without id was registered. -/
def addrPoolFirst : NodePool :=
  { entries := [(":9090", addrEntry "first" 0)],
    events := [Event.NewFromDef (addrEndpoint "first")] }

/-- The pool after the second endpoint without id was registered. -/
def addrPoolSecond : NodePool :=
  { entries := [(":9090", addrEntry "second" 1)],
    events := [Event.NewFromDef (addrEndpoint "first"),
               Event.NewFromDef (addrEndpoint "second")] }

/-- A sample rule chain declaring the endpoint `"ws1"` after a nil pointer, and
the nodes `"db1"` and `"db2"`. -/
def sampleChain : types.RuleChain :=
  { RuleChain := ⟨"chain1", "chain1", false, true, false, [], none⟩,
    Metadata := ⟨[none, some (sampleEndpoint "ws1" "ws")],
                 [some (sampleNode "db1" "mqttClient"), some (sampleNode "db2" "mqttClient")]⟩ }

end node_pool

namespace config

/-- The server configuration `config.Config`, as far as the registry reads it. -/
structure Config where
  DataDir : String
  MaxNodeLogSize : Int
  Debug : Bool
deriving DecidableEq, Repr

end config

namespace dao

/-- The persistence delegate `*dao.RuleDao` built by `dao.NewRuleDao`; `docs`
is what it has stored: per user name, the document of each chain id. -/
structure RuleDao where
  handle : Nat
  docs : KVMap (KVMap String) := []
deriving DecidableEq, Repr

namespace RuleDao

/-- The error of a lookup that finds no document. -/
def ErrNotFound (username chainId : String) : Error :=
  ⟨"rule chain not found: " ++ username ++ "/" ++ chainId⟩

/-- Modelled from the spec: package `dao` is not among the sources.  The spec
gives the persistence delegate `Get(tenant, id) -> bytes` over "one declarative
document per workflow id per tenant", with not-found "always reported to the
caller". -/
def Get (d : RuleDao) (username chainId : String) : Result String :=
  match KVMap.Load d.docs username with
  | none => .err (ErrNotFound username chainId)
  | some m =>
    match KVMap.Load m chainId with
    | none => .err (ErrNotFound username chainId)
    | some b => .ok b

/-- Modelled from the spec: the store after a `Save(tenant, id, bytes)` that
succeeded holds `bytes` as the one document of that id. -/
def put (d : RuleDao) (username chainId def_ : String) : RuleDao :=
  let m := (KVMap.Load d.docs username).getD []
  { d with docs := KVMap.Store d.docs username (KVMap.Store m chainId def_) }

/-- Modelled from the spec: the store after a `Delete(tenant, id)` that
succeeded holds no document of that id. -/
def remove (d : RuleDao) (username chainId : String) : RuleDao :=
  match KVMap.Load d.docs username with
  | none => d
  | some m => { d with docs := KVMap.Store d.docs username (KVMap.Delete m chainId) }

end RuleDao

end dao

namespace constants

/-- Modelled from the spec: the constant `constants.KeyUsername` is not among the
sources; it is the key of the "owner" entry of the free-form metadata. -/
def KeyUsername : String := "username"

end constants

namespace service

/-- The record `DebugData` of one debug event, as the debug hook fills it; the
message is kept as its data. -/
structure DebugData where
  Ts : Int
  NodeId : String
  FlowType : String
  Msg : String
  RelationType : String
  Err : String
deriving DecidableEq, Repr

/-- The recorder `*RuleChainDebugData` built by `NewRuleChainDebugData(maxSize)`:
the maximum it was created with and, per chain id and node id, the events kept,
oldest first. -/
structure RuleChainDebugData where
  MaxSize : Int
  Data : KVMap (KVMap (List DebugData)) := []
deriving DecidableEq, Repr

/-- The constructor `NewRuleChainDebugData`. -/
def NewRuleChainDebugData (maxSize : Int) : RuleChainDebugData := { MaxSize := maxSize }

namespace RuleChainDebugData

/-- The events kept for a node of a chain, oldest first. -/
def Get (d : RuleChainDebugData) (chainId nodeId : String) : List DebugData :=
  (KVMap.Load ((KVMap.Load d.Data chainId).getD []) nodeId).getD []

/-- Modelled from the spec: the recorder is not among the sources.  The spec
stores an event "in a bounded per-node buffer (fixed maximum count, oldest
evicted first)": the event goes to the end, and the oldest events leave while
the count is above the maximum. -/
def push (maxSize : Int) (buf : List DebugData) (data : DebugData) : List DebugData :=
  (buf ++ [data]).drop ((buf ++ [data]).length - maxSize.toNat)

/-- Modelled from the spec: `Add(chainId, nodeId, data)` pushes the event into the
buffer of that node of that chain. -/
def Add (d : RuleChainDebugData) (chainId nodeId : String) (data : DebugData) :
    RuleChainDebugData :=
  let nodes := (KVMap.Load d.Data chainId).getD []
  let buf := push d.MaxSize (d.Get chainId nodeId) data
  { d with Data := KVMap.Store d.Data chainId (KVMap.Store nodes nodeId buf) }

end RuleChainDebugData

/-- The struct `DebugObserver`; `fn` names its callback. -/
structure DebugObserver where
  chainId : String
  clientId : String
  fn : String := ""
deriving DecidableEq, Repr

/-- Modelled from the spec: a running instance of the execution layer, which is
not among the sources; `Definition` is what `RootRuleChainCtx().Definition()`
points to. -/
structure RuleEngine where
  Definition : types.RuleChain
deriving DecidableEq, Repr

/-- The calls that leave the service, in program order. -/
inductive Effect where
  | PoolNew (chainId def_ : String)
  | ReloadSelf (chainId def_ : String)
  | PoolDel (chainId : String)
  | DaoSave (username chainId def_ : String)
  | DaoDelete (username chainId : String)
  | DeleteByChainId (username chainId : String)
  | DebugAdd (chainId nodeId : String) (data : DebugData)
  | Notify (observer : DebugObserver)
      (chainId flowType nodeId msg relationType : String) (err : Option Error)
  | RegisterUdf (name content : String)
  | Printf (format : String)
deriving DecidableEq, Repr

/-- The struct `RuleEngineService` of one tenant; `Pool` maps a chain id to its
running instance, `effects` is the ghost trace. -/
structure RuleEngineService where
  username : String
  config : config.Config
  ruleChainDebugData : RuleChainDebugData
  onDebugObserver : KVMap DebugObserver
  ruleDao : dao.RuleDao
  Pool : KVMap RuleEngine := []
  effects : List Effect := []
deriving DecidableEq, Repr

/-- The collaborators of the registry.  Both read the outside world (storage,
the tenant workspace), so they are given the user names bootstrapped before.
`InitRuleGo` answers `none` when it ends in `logger.Fatal`, which exits the
process. -/
structure Env where
  NewRuleDao : List String → config.Config → Result dao.RuleDao
  InitRuleGo : List String → RuleEngineService → String → String → Option RuleEngineService

/-- The function `NewRuleEngineService`. -/
def NewRuleEngineService (env : Env) (hist : List String) (c : config.Config)
    (username : String) : Result RuleEngineService :=
  match env.NewRuleDao hist c with
  | .err e => .err e
  | .ok ruleDao =>
    let maxNodeLogSize := if c.MaxNodeLogSize = 0 then 40 else c.MaxNodeLogSize
    .ok { Pool := [],
          username := username,
          config := c,
          onDebugObserver := [],
          ruleChainDebugData := NewRuleChainDebugData maxNodeLogSize,
          ruleDao := ruleDao }

/-- The function `NewRuleEngineServiceAndInitRuleGo`; `none` when the process
exits inside `InitRuleGo`. -/
def NewRuleEngineServiceAndInitRuleGo (env : Env) (hist : List String) (c : config.Config)
    (username : String) : Option (Result RuleEngineService) :=
  match NewRuleEngineService env hist c username with
  | .err e => some (.err e)
  | .ok service =>
    match env.InitRuleGo hist service c.DataDir username with
    | none => none
    | some service1 => some (.ok service1)

/-- The struct `UserRuleEngineService`; `inits` is the ghost list of the user
names for which a bootstrap was started, oldest first. -/
structure UserRuleEngineService where
  Pool : KVMap RuleEngineService
  config : config.Config
  inits : List String
deriving DecidableEq, Repr

namespace UserRuleEngineService

/-- Method `Init`. -/
def Init (env : Env) (s : UserRuleEngineService) (username : String) :
    Option (UserRuleEngineService × Result RuleEngineService) :=
  let s1 : UserRuleEngineService := { s with inits := s.inits ++ [username] }
  match NewRuleEngineServiceAndInitRuleGo env s.inits s.config username with
  | none => none
  | some (.ok v) => some ({ s1 with Pool := KVMap.Store s1.Pool username v }, .ok v)
  | some (.err e) => some (s1, .err e)

/-- Method `Get`. -/
def Get (env : Env) (s : UserRuleEngineService) (username : String) :
    Option (UserRuleEngineService × (Option RuleEngineService × Bool)) :=
  match KVMap.Load s.Pool username with
  | some v => some (s, (some v, true))
  | none =>
    match Init env s username with
    | none => none
    | some (s1, .ok v) => some (s1, (some v, true))
    | some (s1, .err _) => some (s1, (none, false))

/-- A run of `Get` calls, one user name after the other; `none` when the
process exits on the way. -/
def runGets (env : Env) : UserRuleEngineService → List String → Option UserRuleEngineService
  | s, [] => some s
  | s, u :: us =>
    match Get env s u with
    | none => none
    | some (s1, _) => runGets env s1 us

end UserRuleEngineService

/-- A sample set of collaborators: storage cannot be opened when the data
directory is empty, and the bootstrap of the user `"fatal"` ends the process. -/
def sampleEnv : Env where
  NewRuleDao := fun hist c =>
    if c.DataDir = "" then .err ⟨"data dir is empty"⟩ else .ok { handle := hist.length }
  InitRuleGo := fun _ service _ username =>
    if username = "fatal" then none else some service

/-- A sample registry without tenants. -/
def sampleRegistry : UserRuleEngineService :=
  { Pool := [], config := ⟨"data", 0, false⟩, inits := [] }

/-- A sample registry whose storage cannot be opened. -/
def sampleRegistryNoData : UserRuleEngineService :=
  { Pool := [], config := ⟨"", 0, false⟩, inits := [] }

/-- The service that the sample collaborators bootstrap for `"alice"`. -/
def sampleAlice : RuleEngineService :=
  { username := "alice",
    config := ⟨"data", 0, false⟩,
    ruleChainDebugData := { MaxSize := 40 },
    onDebugObserver := [],
    ruleDao := { handle := 0 } }

/-- A sample definition: enabled, without additional info, with one node. -/
def sampleDef : types.RuleChain :=
  { RuleChain := { ID := "c1", Name := "chain one", DebugMode := false, Root := true,
                   Disabled := false, Configuration := [("env", "prod")],
                   AdditionalInfo := none },
    Metadata := { Endpoints := [], Nodes := [some ⟨"n1", "log", "n1", false, []⟩] } }

/-- The last `m` elements of a list, all of them when there are fewer. -/
def lastEvents (m : Nat) (l : List DebugData) : List DebugData :=
  l.drop (l.length - m)

/-- Recording a sequence of events, each for its chain and node, in order. -/
def RuleChainDebugData.addAll (d : RuleChainDebugData) :
    List (String × String × DebugData) → RuleChainDebugData
  | [] => d
  | (chainId, nodeId, data) :: rest => (d.Add chainId nodeId data).addAll rest

/-- The events of a recorded sequence that belong to a node of a chain. -/
def eventsOf (chainId nodeId : String) (evs : List (String × String × DebugData)) :
    List DebugData :=
  (evs.filter (fun ev => decide (ev.1 = chainId ∧ ev.2.1 = nodeId))).map (fun ev => ev.2.2)

/-- A sample debug event, told apart by its message. -/
def sampleEvent (msg : String) : DebugData :=
  { Ts := 0, NodeId := "n1", FlowType := "IN", Msg := msg, RelationType := "", Err := "" }

/-- The sample service with three debug observers: `"ws-a"` and `"ws-c"` watch
chain `"c1"`, `"ws-b"` watches `"c2"`. -/
def sampleObserved : RuleEngineService :=
  { username := "alice",
    config := ⟨"data", 0, false⟩,
    ruleChainDebugData := { MaxSize := 40 },
    onDebugObserver := [("ws-a", ⟨"c1", "ws-a", "fnA"⟩), ("ws-b", ⟨"c2", "ws-b", "fnB"⟩),
                        ("ws-c", ⟨"c1", "ws-c", "fnC"⟩)],
    ruleDao := { handle := 0 } }

/-! ### The engine service of one tenant -/

/-- Method `PutAdditionalInfo` of the chain header: the map is made when nil. -/
def PutAdditionalInfo (b : types.RuleChainBaseInfo) (key value : String) :
    types.RuleChainBaseInfo :=
  { b with AdditionalInfo := some (KVMap.Store (b.AdditionalInfo.getD []) key value) }

/-- The definition with its `Disabled` flag set to `v`, the rest untouched. -/
def withDisabled (d : types.RuleChain) (v : Bool) : types.RuleChain :=
  { d with RuleChain := { d.RuleChain with Disabled := v } }

/-- The definition with `value` under `key` in its configuration, the rest
untouched. -/
def withConfiguration (d : types.RuleChain) (key value : String) : types.RuleChain :=
  { d with
    RuleChain := { d.RuleChain with
      Configuration := KVMap.Store d.RuleChain.Configuration key value } }

/-- The collaborators of the engine service: the JSON codec (`json.Unmarshal`,
`json.Marshal`, `json.Format` with its error dropped), what the execution layer
builds from a DSL (`Compile`) and gives back as the DSL of a definition (`DSL`),
and whether a write of the persistence delegate or the purge of the event
service fails.  Those that act on the outside world are given the effects that
came before. -/
structure Deps where
  Unmarshal : String → Result types.RuleChain
  Marshal : types.RuleChain → Result String
  Format : String → String
  Compile : List Effect → String → String → Result types.RuleChain
  DSL : types.RuleChain → String
  DaoSave : List Effect → String → String → String → Option Error
  DaoDelete : List Effect → String → String → Option Error
  DeleteByChainId : List Effect → String → String → Option Error

/-- Modelled from the spec: the definition compiler/parser "decodes a declarative
byte blob into a structured definition and back".  `b` is the encoding of `d`
and decodes back to `d`. -/
def Deps.Codec (deps : Deps) (d : types.RuleChain) (b : String) : Prop :=
  deps.Marshal d = .ok b ∧ deps.Unmarshal b = .ok d

/-- Modelled from the spec: the execution layer is not among the sources.
`SaveConfiguration` "triggers a self-reload of the running instance from its own
(mutated) definition, and persists the resulting compiled DSL": an instance
compiled from the DSL of a definition runs on that definition. -/
def Deps.CompileKeeps (deps : Deps) : Prop :=
  ∀ tr chainId d d1, deps.Compile tr chainId (deps.DSL d) = .ok d1 → d1 = d

/-- The file system, the script compiler and the path functions that `loadJs`
calls: `fs.GetFilePaths`, `fs.LoadFile` (`none` is nil), `goja.Compile`,
`path.Base` and `path.Join`. -/
structure JsEnv where
  GetFilePaths : String → Result (List String)
  LoadFile : String → Option String
  Compile : String → String → Result String
  Base : String → String
  Join : String → String → String

namespace RuleEngineService

/-- Modelled from the spec: `Get(id) -> (instance, found)` of the execution
layer. -/
def PoolGet (s : RuleEngineService) (chainId : String) : Option RuleEngine × Bool :=
  match KVMap.Load s.Pool chainId with
  | some e => (some e, true)
  | none => (none, false)

/-- Modelled from the spec: `Del(id)` of the execution layer removes the running
instance of that id. -/
def PoolDel (s : RuleEngineService) (chainId : String) : RuleEngineService :=
  { s with Pool := KVMap.Delete s.Pool chainId,
           effects := s.effects ++ [Effect.PoolDel chainId] }

/-- Modelled from the spec: `New(id, bytes, config) -> (instance, error)` of the
execution layer compiles the bytes and, when that succeeds, keeps the new
instance under the id. -/
def PoolNew (deps : Deps) (s : RuleEngineService) (chainId def_ : String) :
    RuleEngineService × Result RuleEngine :=
  let s1 : RuleEngineService := { s with effects := s.effects ++ [Effect.PoolNew chainId def_] }
  match deps.Compile s.effects chainId def_ with
  | .err e => (s1, .err e)
  | .ok d => ({ s1 with Pool := KVMap.Store s1.Pool chainId { Definition := d } },
              .ok { Definition := d })

/-- Modelled from the spec: `ReloadSelf(bytes) -> error` of the running instance
kept under `chainId` compiles the bytes and, when that succeeds, runs on the new
definition; the instance after the call is returned with the error. -/
def ReloadSelf (deps : Deps) (s : RuleEngineService) (chainId : String)
    (ruleEngine : RuleEngine) (def_ : String) :
    RuleEngineService × RuleEngine × Option Error :=
  let s1 : RuleEngineService :=
    { s with effects := s.effects ++ [Effect.ReloadSelf chainId def_] }
  match deps.Compile s.effects chainId def_ with
  | .err e => (s1, ruleEngine, some e)
  | .ok d => ({ s1 with Pool := KVMap.Store s1.Pool chainId { Definition := d } },
              { Definition := d }, none)

/-- Modelled from the spec: `Save(tenant, id, bytes) -> error` of the persistence
delegate; a write that fails stores nothing. -/
def DaoSave (deps : Deps) (s : RuleEngineService) (username chainId def_ : String) :
    RuleEngineService × Option Error :=
  let s1 : RuleEngineService :=
    { s with effects := s.effects ++ [Effect.DaoSave username chainId def_] }
  match deps.DaoSave s.effects username chainId def_ with
  | some e => (s1, some e)
  | none => ({ s1 with ruleDao := s1.ruleDao.put username chainId def_ }, none)

/-- Modelled from the spec: `Delete(tenant, id) -> error` of the persistence
delegate; a delete that fails removes nothing. -/
def DaoDelete (deps : Deps) (s : RuleEngineService) (username chainId : String) :
    RuleEngineService × Option Error :=
  let s1 : RuleEngineService :=
    { s with effects := s.effects ++ [Effect.DaoDelete username chainId] }
  match deps.DaoDelete s.effects username chainId with
  | some e => (s1, some e)
  | none => ({ s1 with ruleDao := s1.ruleDao.remove username chainId }, none)

/-- The call `EventServiceImpl.DeleteByChainId(username, chainId)`. -/
def DeleteByChainId (deps : Deps) (s : RuleEngineService) (username chainId : String) :
    RuleEngineService × Option Error :=
  ({ s with effects := s.effects ++ [Effect.DeleteByChainId username chainId] },
   deps.DeleteByChainId s.effects username chainId)

/-- Method `fillAdditionalInfo`; `nowStr` is the formatted reading of the clock. -/
def fillAdditionalInfo (s : RuleEngineService) (d : types.RuleChain) (nowStr : String) :
    types.RuleChain :=
  let info0 : KVMap String := d.RuleChain.AdditionalInfo.getD []
  let info1 := KVMap.Store info0 constants.KeyUsername s.username
  let info2 :=
    match KVMap.Load info1 "createTime" with
    | some _ => info1
    | none => KVMap.Store info1 "createTime" nowStr
  let info3 := KVMap.Store info2 "updateTime" nowStr
  { d with RuleChain := { d.RuleChain with AdditionalInfo := some info3 } }

/-- Method `Get`. -/
def Get (s : RuleEngineService) (chainId : String) : Result String :=
  s.ruleDao.Get s.username chainId

/-- Method `Redeploy`. -/
def Redeploy (deps : Deps) (s : RuleEngineService) (chainId def_ : String) :
    RuleEngineService × Option Error :=
  match s.PoolGet chainId with
  | (some ruleEngine, true) =>
    match ReloadSelf deps s chainId ruleEngine def_ with
    | (s1, _, err) => (s1, err)
  | _ =>
    match PoolNew deps s chainId def_ with
    | (s1, .err err) => (s1, some err)
    | (s1, .ok _) => (s1, none)

/-- The tail of `Save`: encode the definition and hand it to the persistence
delegate. -/
def Save.persist (deps : Deps) (s : RuleEngineService) (chainId : String)
    (ruleChain : types.RuleChain) : RuleEngineService × Option Error :=
  match deps.Marshal ruleChain with
  | .err err => (s, some err)
  | .ok b => DaoSave deps s s.username chainId b

/-- Method `Save`; `nowStr` is the formatted reading of the clock. -/
def Save (deps : Deps) (s : RuleEngineService) (chainId def_ nowStr : String) :
    RuleEngineService × Option Error :=
  match deps.Unmarshal def_ with
  | .err err => (s, some err)
  | .ok ruleChain0 =>
    let ruleChain := fillAdditionalInfo s ruleChain0 nowStr
    if ruleChain.RuleChain.Disabled = false then
      match Redeploy deps s chainId def_ with
      | (s1, some err) =>
        -- the local `ruleChain` is marked and then dropped by `return err`
        let _marked : types.RuleChain :=
          { ruleChain with
            RuleChain := PutAdditionalInfo { ruleChain.RuleChain with Disabled := true }
              "message" err.msg }
        (s1, some err)
      | (s1, none) => Save.persist deps s1 chainId ruleChain
    else
      Save.persist deps (s.PoolDel chainId) chainId ruleChain

/-- Method `Delete`. -/
def Delete (deps : Deps) (s : RuleEngineService) (chainId : String) :
    RuleEngineService × Option Error :=
  let s1 := s.PoolDel chainId
  match DaoDelete deps s1 s1.username chainId with
  | (s2, some err) => (s2, some err)
  | (s2, none) => DeleteByChainId deps s2 s2.username chainId

/-- Method `SaveConfiguration`.  The definition handed out by the instance is
changed in place, so the instance kept in the pool holds the change before the
reload is tried. -/
def SaveConfiguration (deps : Deps) (s : RuleEngineService)
    (chainId key configuration nowStr : String) : RuleEngineService × Option Error :=
  if chainId ≠ "" then
    match s.PoolGet chainId with
    | (some ruleEngine, true) =>
      let self0 := ruleEngine.Definition
      -- a nil `Configuration` is made first; the empty list stands for both
      let self1 : types.RuleChain :=
        { self0 with
          RuleChain := { self0.RuleChain with
            Configuration := KVMap.Store self0.RuleChain.Configuration key configuration } }
      let self2 := fillAdditionalInfo s self1 nowStr
      let ruleEngine1 : RuleEngine := { Definition := self2 }
      let s1 : RuleEngineService := { s with Pool := KVMap.Store s.Pool chainId ruleEngine1 }
      match ReloadSelf deps s1 chainId ruleEngine1 (deps.DSL ruleEngine1.Definition) with
      | (s2, _, some err) => (s2, some err)
      | (s2, ruleEngine2, none) =>
        let def_ := deps.Format (deps.DSL ruleEngine2.Definition)
        DaoSave deps s2 s2.username chainId def_
    | _ => (s, some ⟨"找不到规则链：" ++ chainId⟩)
  else
    (s, some ⟨"chainId 不能为空"⟩)

/-- The bytes that `def, err := s.Get(chainId)` leaves in `def`: nil when the
lookup failed. -/
def getBytes (s : RuleEngineService) (chainId : String) : String :=
  match s.Get chainId with
  | .ok b => b
  | .err _ => ""

/-- Method `Undeploy`. -/
def Undeploy (deps : Deps) (s : RuleEngineService) (chainId : String) :
    RuleEngineService × Option Error :=
  match deps.Unmarshal (s.getBytes chainId) with
  | .err err => (s, some err)
  | .ok ruleChain0 =>
    let s1 := s.PoolDel chainId
    let ruleChain := withDisabled ruleChain0 true
    match deps.Marshal ruleChain with
    | .err err => (s1, some err)
    | .ok b => DaoSave deps s1 s1.username chainId b

/-- Method `Deploy`; `nowStr` is the formatted reading of the clock. -/
def Deploy (deps : Deps) (s : RuleEngineService) (chainId nowStr : String) :
    RuleEngineService × Option Error :=
  match deps.Unmarshal (s.getBytes chainId) with
  | .err err => (s, some err)
  | .ok ruleChain0 =>
    let ruleChain := withDisabled ruleChain0 false
    match deps.Marshal ruleChain with
    | .err err => (s, some err)
    | .ok b => Save deps s chainId b nowStr

/-- The loop of method `OnDebug` over the observers still to visit: one
`go observer.fn(...)` for each observer registered for `chainId`. -/
def OnDebug.loop (chainId flowType nodeId msg relationType : String) (err : Option Error) :
    KVMap DebugObserver → List Effect
  | [] => []
  | (_, observer) :: rest =>
    if observer.chainId = chainId then
      Effect.Notify observer chainId flowType nodeId msg relationType err ::
        OnDebug.loop chainId flowType nodeId msg relationType err rest
    else
      OnDebug.loop chainId flowType nodeId msg relationType err rest

/-- Method `OnDebug`. -/
def OnDebug (s : RuleEngineService) (chainId flowType nodeId msg relationType : String)
    (err : Option Error) : RuleEngineService :=
  let dispatched := OnDebug.loop chainId flowType nodeId msg relationType err s.onDebugObserver
  { s with effects := s.effects ++ dispatched }

/-- Method `AddOnDebugObserver`. -/
def AddOnDebugObserver (s : RuleEngineService) (chainId clientId fn : String) :
    RuleEngineService :=
  let observer : DebugObserver := { chainId := chainId, clientId := clientId, fn := fn }
  { s with onDebugObserver := KVMap.Store s.onDebugObserver clientId observer }

/-- Method `RemoveOnDebugObserver`. -/
def RemoveOnDebugObserver (s : RuleEngineService) (clientId : String) : RuleEngineService :=
  { s with onDebugObserver := KVMap.Delete s.onDebugObserver clientId,
           effects := s.effects ++ [Effect.Printf "debug observer length=%d"] }

/-- The function that `InitRuleGo` installs as `ruleConfig.OnDebug`; `nowMilli` is
the reading of the clock in milliseconds. -/
def InitRuleGo.OnDebug (s : RuleEngineService)
    (chainId flowType nodeId msg relationType : String) (err : Option Error)
    (nowMilli : Int) : RuleEngineService :=
  let errStr := match err with
    | some e => e.msg
    | none => ""
  let s1 : RuleEngineService :=
    if s.config.Debug = true then
      { s with
        effects := s.effects ++ [Effect.Printf "chainId=%s,flowType=%s,nodeId=%s,data=%s,err=%s"] }
    else s
  let data : DebugData :=
    { Ts := nowMilli, NodeId := nodeId, FlowType := flowType, Msg := msg,
      RelationType := relationType, Err := errStr }
  let s2 : RuleEngineService :=
    { s1 with ruleChainDebugData := s1.ruleChainDebugData.Add chainId nodeId data,
              effects := s1.effects ++ [Effect.DebugAdd chainId nodeId data] }
  s2.OnDebug chainId flowType nodeId msg relationType err

/-- The loop of `loadJs` over the files still to load. -/
def loadJs.loop (js : JsEnv) : RuleEngineService → List String → RuleEngineService
  | s, [] => s
  | s, file :: rest =>
    match js.LoadFile file with
    | none => loadJs.loop js s rest
    | some b =>
      match js.Compile file b with
      | .err _ =>
        loadJs.loop js
          { s with effects := s.effects ++ [Effect.Printf "Compile js file=%s err=%s"] } rest
      | .ok p =>
        loadJs.loop js
          { s with effects := s.effects ++ [Effect.RegisterUdf (js.Base file) p] } rest

/-- Method `loadJs`; the folder it first makes sure exists is not modelled. -/
def loadJs (js : JsEnv) (s : RuleEngineService) (folderPath : String) :
    RuleEngineService × Option Error :=
  match js.GetFilePaths (folderPath ++ "/*.js") with
  | .err err => (s, some err)
  | .ok paths => (loadJs.loop js s paths, none)

/-- The step of `InitRuleGo` that loads the scripts: `none` when it ends in
`logger.Fatal("parser js file error:", err)`. -/
def InitRuleGo.loadJsStep (js : JsEnv) (s : RuleEngineService) (workspacePath : String) :
    Option RuleEngineService :=
  match loadJs js s (js.Join workspacePath "js") with
  | (_, some _) => none
  | (s1, none) => some s1

end RuleEngineService

/-! ### Sample collaborators and services -/

/-- A sample workspace: the folder `ws/js` holds `bad.js`, which does not
compile, and `ok.js`; any other folder cannot be listed. -/
def sampleJs : JsEnv where
  GetFilePaths := fun pattern =>
    if pattern = "ws/js/*.js" then .ok ["ws/js/bad.js", "ws/js/ok.js"]
    else .err ⟨"syntax error in pattern"⟩
  LoadFile := fun file =>
    if file = "ws/js/bad.js" then some "function("
    else if file = "ws/js/ok.js" then some "var f = 1"
    else none
  Compile := fun file _ =>
    if file = "ws/js/bad.js" then .err ⟨"SyntaxError"⟩ else .ok "compiled:ok"
  Base := fun file => if file = "ws/js/ok.js" then "ok.js" else file
  Join := fun a b => a ++ "/" ++ b

/-- A sample definition that decodes but does not compile. -/
def sampleBroken : types.RuleChain :=
  { RuleChain := { ID := "c1", Name := "broken", DebugMode := false, Root := true,
                   Disabled := false, Configuration := [], AdditionalInfo := none },
    Metadata := { Endpoints := [], Nodes := [some ⟨"n1", "nosuchtype", "n1", false, []⟩] } }

/-- The documents that the sample codec knows, each with its definition. -/
def sampleDocs : KVMap types.RuleChain :=
  [("def", sampleDef),
   ("def@T1", sampleAlice.fillAdditionalInfo sampleDef "T1"),
   ("off@T1", withDisabled (sampleAlice.fillAdditionalInfo sampleDef "T1") true),
   ("def@T2",
     sampleAlice.fillAdditionalInfo (sampleAlice.fillAdditionalInfo sampleDef "T1") "T2"),
   ("broken", sampleBroken)]

/-- A sample set of collaborators: the codec of `sampleDocs`, an execution layer
that compiles every document it can decode except `"broken"`, and storage that
refuses to write or delete the chain id `"readonly"`. -/
def sampleDeps : Deps where
  Unmarshal := fun b =>
    match KVMap.Load sampleDocs b with
    | some d => .ok d
    | none => .err ⟨"invalid character"⟩
  Marshal := fun d =>
    match sampleDocs.find? (fun p => decide (p.2 = d)) with
    | some p => .ok p.1
    | none => .err ⟨"unsupported value"⟩
  Format := fun b => b
  Compile := fun _ _ b =>
    if b = "broken" then .err ⟨"component not found: nosuchtype"⟩
    else
      match KVMap.Load sampleDocs b with
      | some d => .ok d
      | none => .err ⟨"invalid character"⟩
  DSL := fun d =>
    match sampleDocs.find? (fun p => decide (p.2 = d)) with
    | some p => p.1
    | none => ""
  DaoSave := fun _ _ chainId _ =>
    if chainId = "readonly" then some ⟨"read-only file system"⟩ else none
  DaoDelete := fun _ _ chainId =>
    if chainId = "readonly" then some ⟨"read-only file system"⟩ else none
  DeleteByChainId := fun _ _ chainId =>
    if chainId = "nolog" then some ⟨"event store closed"⟩ else none

/-- The sample service of `"alice"` with the enabled chain `"c1"` persisted and
running, and the same document persisted under `"readonly"`. -/
def sampleDeployed : RuleEngineService :=
  { username := "alice",
    config := ⟨"data", 0, false⟩,
    ruleChainDebugData := { MaxSize := 40 },
    onDebugObserver := [],
    ruleDao := { handle := 0,
                 docs := [("alice", [("c1", "def@T1"), ("readonly", "def@T1")])] },
    Pool := [("c1", { Definition := sampleAlice.fillAdditionalInfo sampleDef "T1" }),
             ("readonly", { Definition := sampleAlice.fillAdditionalInfo sampleDef "T1" })] }

end service

/-! ## Association lists -/

namespace KVMap

theorem Load_cons {V : Type} (k : String) (v : V) (m : KVMap V) (key : String) :
    Load ((k, v) :: m) key = if k = key then some v else Load m key := rfl

theorem Store_cons {V : Type} (k : String) (x : V) (m : KVMap V) (key : String) (v : V) :
    Store ((k, x) :: m) key v = if k = key then (key, v) :: m else (k, x) :: Store m key v := rfl

theorem Delete_cons {V : Type} (k : String) (v : V) (m : KVMap V) (key : String) :
    Delete ((k, v) :: m) key = if k = key then Delete m key else (k, v) :: Delete m key := by
  by_cases hk : k = key <;> simp [Delete, hk]

theorem Load_Delete_self {V : Type} (m : KVMap V) (key : String) :
    Load (Delete m key) key = none := by
  induction m with
  | nil => rfl
  | cons p m ih =>
    obtain ⟨k, v⟩ := p
    rw [Delete_cons]
    split_ifs with hk
    · exact ih
    · rw [Load_cons, if_neg hk]; exact ih

theorem Load_Delete_ne {V : Type} (m : KVMap V) (key other : String) (h : other ≠ key) :
    Load (Delete m key) other = Load m other := by
  induction m with
  | nil => rfl
  | cons p m ih =>
    obtain ⟨k, v⟩ := p
    rw [Delete_cons, Load_cons]
    split_ifs with hk hko hko
    · exact absurd (hko.symm.trans hk) h
    · exact ih
    · rw [Load_cons, if_pos hko]
    · rw [Load_cons, if_neg hko]; exact ih

theorem Load_Store_self {V : Type} (m : KVMap V) (key : String) (v : V) :
    Load (Store m key v) key = some v := by
  induction m with
  | nil => simp [Store, Load]
  | cons p m ih =>
    obtain ⟨k, x⟩ := p
    rw [Store_cons]
    split_ifs with hk
    · rw [Load_cons, if_pos rfl]
    · rw [Load_cons, if_neg hk]; exact ih

theorem Load_Store_ne {V : Type} (m : KVMap V) (key other : String) (v : V) (h : other ≠ key) :
    Load (Store m key v) other = Load m other := by
  induction m with
  | nil => simp [Store, Load, Ne.symm h]
  | cons p m ih =>
    obtain ⟨k, x⟩ := p
    rw [Store_cons, Load_cons]
    split_ifs with hk hko hko
    · exact absurd (hko.symm.trans hk) h
    · rw [Load_cons, if_neg (Ne.symm h)]
    · rw [Load_cons, if_pos hko]
    · rw [Load_cons, if_neg hko]; exact ih

theorem Delete_of_Load_none {V : Type} (m : KVMap V) (key : String) (h : Load m key = none) :
    Delete m key = m := by
  induction m with
  | nil => rfl
  | cons p m ih =>
    obtain ⟨k, v⟩ := p
    rw [Load_cons] at h
    rw [Delete_cons]
    split_ifs at h ⊢ with hk
    rw [ih h]

theorem keys_Store {V : Type} (m : KVMap V) (key : String) (v : V) :
    keys (Store m key v) = if key ∈ keys m then keys m else keys m ++ [key] := by
  induction m with
  | nil => simp [Store, keys]
  | cons p m ih =>
    obtain ⟨k, x⟩ := p
    rw [Store_cons]
    by_cases hk : k = key
    · subst hk
      simp [keys]
    · have hkey : ¬ key = k := fun h => hk h.symm
      simp only [keys, if_neg hk, List.map_cons, List.mem_cons, hkey, false_or] at ih ⊢
      rw [ih]
      split_ifs <;> simp

/-- Storing keeps the keys distinct. -/
theorem keys_Store_nodup {V : Type} (m : KVMap V) (key : String) (v : V)
    (h : (keys m).Nodup) : (keys (Store m key v)).Nodup := by
  rw [keys_Store]
  split_ifs with hk
  · exact h
  · exact List.Nodup.append h (List.nodup_singleton _) (by simpa using hk)

/-- Deleting keeps the keys distinct. -/
theorem keys_Delete_nodup {V : Type} (m : KVMap V) (key : String)
    (h : (keys m).Nodup) : (keys (Delete m key)).Nodup :=
  List.Nodup.sublist (List.Sublist.map _ (List.filter_sublist _)) h

end KVMap

/-! ## The shared node pool -/

namespace node_pool

/-! ### Lemmas on the operations -/

/-- Both registration methods follow one scheme: duplicate check, factory call,
capability check, store under the node id of the built context. -/
theorem register_eq (env : Env) (n : NodePool) (a : Registration) :
    n.register env a =
      match KVMap.Load n.entries a.Id with
      | some _ => some (n, .err ⟨"duplicate node id:" ++ a.Id⟩)
      | none =>
        match a.build env n.events with
        | .err e => some ({ n with events := n.events ++ [a.factoryCall] }, .err e)
        | .ok (_, _, none) =>
          some ({ n with events := n.events ++ [a.factoryCall] }, .err ErrNotImplemented)
        | .ok (rCtx, nodeId, some _) =>
          some ({ entries := KVMap.Store n.entries nodeId.Id rCtx,
                  events := n.events ++ [a.factoryCall] }, .ok rCtx) := by
  cases a with
  | endpoint d =>
    simp only [NodePool.register, NodePool.NewFromEndpoint, Registration.Id,
      Registration.build, Registration.factoryCall]
    cases KVMap.Load n.entries d.RuleNode.Id with
    | some v => rfl
    | none =>
      simp only []
      cases env.NewFromDef n.events { RuleNode := d.RuleNode, Processors := [], Routers := [] } with
      | err e => rfl
      | ok ctx =>
        simp only []
        cases ctx.Target.SharedNode with
        | none => rfl
        | some sn => rfl
  | node d =>
    simp only [NodePool.register, NodePool.NewFromRuleNode, Registration.Id,
      Registration.build, Registration.factoryCall]
    cases KVMap.Load n.entries d.Id with
    | some v => rfl
    | none =>
      simp only []
      cases env.InitNetResourceNodeCtx n.events d with
      | err e => rfl
      | ok ctx =>
        simp only []
        cases ctx.Node.SharedNode with
        | none => rfl
        | some sn => rfl

theorem Get_eq_some (n : NodePool) (id : String) (v : sharedNodeCtx) :
    n.Get id = (some v, true) ↔ KVMap.Load n.entries id = some v := by
  unfold NodePool.Get
  cases KVMap.Load n.entries id <;> simp

theorem Get_eq_none (n : NodePool) (id : String) :
    n.Get id = (none, false) ↔ KVMap.Load n.entries id = none := by
  unfold NodePool.Get
  cases KVMap.Load n.entries id <;> simp

/-- A successful registration, spelled out: the factory built a context with the
shared capability, and the entry was stored under the node id of that context. -/
theorem register_ok (env : Env) (n p : NodePool) (a : Registration) (e : sharedNodeCtx)
    (h : n.register env a = some (p, .ok e)) :
    KVMap.Load n.entries a.Id = none ∧
    ∃ nodeId sn, a.build env n.events = .ok (e, nodeId, some sn) ∧
      p = { entries := KVMap.Store n.entries nodeId.Id e,
            events := n.events ++ [a.factoryCall] } := by
  rw [register_eq] at h
  cases hl : KVMap.Load n.entries a.Id with
  | some v => simp [hl] at h
  | none =>
    refine ⟨rfl, ?_⟩
    simp only [hl] at h
    cases hb : a.build env n.events with
    | err e1 => simp [hb] at h
    | ok t =>
      obtain ⟨rCtx, nodeId, osn⟩ := t
      cases osn with
      | none => simp [hb] at h
      | some sn =>
        simp only [hb, Option.some.injEq, Prod.mk.injEq, Result.ok.injEq] at h
        obtain ⟨hp, he⟩ := h
        subst he
        exact ⟨nodeId, sn, rfl, hp.symm⟩

/-- A registration whose id is free and whose factory fails returns the error of
the factory and keeps the entries. -/
theorem register_build_err (env : Env) (n : NodePool) (a : Registration) (e : Error)
    (hfresh : KVMap.Load n.entries a.Id = none) (hb : a.build env n.events = .err e) :
    n.register env a = some ({ n with events := n.events ++ [a.factoryCall] }, .err e) := by
  rw [register_eq, hfresh]
  simp only [hb]

/-- A registration whose id is free and whose built component lacks the shared
capability returns `ErrNotImplemented` and keeps the entries. -/
theorem register_build_unshared (env : Env) (n : NodePool) (a : Registration)
    (rCtx : sharedNodeCtx) (nodeId : types.RuleNodeId)
    (hfresh : KVMap.Load n.entries a.Id = none)
    (hb : a.build env n.events = .ok (rCtx, nodeId, none)) :
    n.register env a =
      some ({ n with events := n.events ++ [a.factoryCall] }, .err ErrNotImplemented) := by
  rw [register_eq, hfresh]
  simp only [hb]

/-- A registration whose id is free and whose built component is shared stores
the new entry under the node id of the built context. -/
theorem register_build_shared (env : Env) (n : NodePool) (a : Registration)
    (rCtx : sharedNodeCtx) (nodeId : types.RuleNodeId) (sn : types.SharedNode)
    (hfresh : KVMap.Load n.entries a.Id = none)
    (hb : a.build env n.events = .ok (rCtx, nodeId, some sn)) :
    n.register env a =
      some ({ entries := KVMap.Store n.entries nodeId.Id rCtx,
              events := n.events ++ [a.factoryCall] }, .ok rCtx) := by
  rw [register_eq, hfresh]
  simp only [hb]

/-- A registration always returns: the node id of a fresh entry is there to read. -/
theorem register_isSome (env : Env) (n : NodePool) (a : Registration) :
    ∃ p r, n.register env a = some (p, r) ∧
      (KVMap.Load n.entries a.Id = none → p.events = n.events ++ [a.factoryCall]) := by
  rw [register_eq]
  cases KVMap.Load n.entries a.Id with
  | some v => exact ⟨_, _, rfl, fun h => by cases h⟩
  | none =>
    simp only []
    cases a.build env n.events with
    | err e => exact ⟨_, _, rfl, fun _ => rfl⟩
    | ok t =>
      obtain ⟨rCtx, nodeId, osn⟩ := t
      cases osn with
      | none => exact ⟨_, _, rfl, fun _ => rfl⟩
      | some sn => exact ⟨_, _, rfl, fun _ => rfl⟩

/-- A registration that fails leaves the entries as they were and made at most
its own factory call. -/
theorem register_err_entries (env : Env) (n p : NodePool) (a : Registration) (e : Error)
    (h : n.register env a = some (p, .err e)) :
    p.entries = n.entries ∧
      (p.events = n.events ∨ p.events = n.events ++ [a.factoryCall]) := by
  rw [register_eq] at h
  cases hl : KVMap.Load n.entries a.Id with
  | some v =>
    simp only [hl, Option.some.injEq, Prod.mk.injEq] at h
    rw [← h.1]
    exact ⟨rfl, Or.inl rfl⟩
  | none =>
    simp only [hl] at h
    cases hb : a.build env n.events with
    | err e1 =>
      simp only [hb, Option.some.injEq, Prod.mk.injEq] at h
      rw [← h.1]
      exact ⟨rfl, Or.inr rfl⟩
    | ok t =>
      obtain ⟨rCtx, nodeId, osn⟩ := t
      cases osn with
      | none =>
        simp only [hb, Option.some.injEq, Prod.mk.injEq] at h
        rw [← h.1]
        exact ⟨rfl, Or.inr rfl⟩
      | some sn => simp [hb] at h

/-- A successful registration, seen from `Get`: the new entry is found under the
node id of the built context, whatever was there before, and every other id
maps to what it mapped to. -/
theorem register_ok_Get (env : Env) (n p : NodePool) (a : Registration) (e : sharedNodeCtx)
    (h : n.register env a = some (p, .ok e)) :
    ∃ nodeId, e.GetNodeId = some nodeId ∧
      p.Get nodeId.Id = (some e, true) ∧
      ∀ id, id ≠ nodeId.Id → p.Get id = n.Get id := by
  obtain ⟨_, nodeId, sn, hb, hp⟩ := register_ok env n p a e h
  have hg : e.GetNodeId = some nodeId := by
    cases a with
    | endpoint d =>
      simp only [Registration.build] at hb
      cases hf : env.NewFromDef n.events
          { RuleNode := d.RuleNode, Processors := [], Routers := [] } with
      | err e1 => simp [hf] at hb
      | ok ctx =>
        simp only [hf, Result.ok.injEq, Prod.mk.injEq] at hb
        obtain ⟨he, hn, _⟩ := hb
        subst he hn
        rfl
    | node d =>
      simp only [Registration.build] at hb
      cases hf : env.InitNetResourceNodeCtx n.events d with
      | err e1 => simp [hf] at hb
      | ok ctx =>
        simp only [hf, Result.ok.injEq, Prod.mk.injEq] at hb
        obtain ⟨he, hn, _⟩ := hb
        subst he hn
        rfl
  refine ⟨nodeId, hg, ?_, ?_⟩
  · rw [Get_eq_some, hp]
    exact KVMap.Load_Store_self _ _ _
  · intro id hne
    simp only [NodePool.Get, hp, KVMap.Load_Store_ne _ _ _ _ hne]

theorem Del_present (n : NodePool) (id : String) (v : sharedNodeCtx)
    (h : KVMap.Load n.entries id = some v) :
    n.Del id = { entries := KVMap.Delete n.entries id,
                 events := n.events ++ [v.Destroy, Event.EntriesDelete id] } := by
  simp only [NodePool.Del, h]

theorem Del_absent (n : NodePool) (id : String) (h : KVMap.Load n.entries id = none) :
    n.Del id = n := by
  simp only [NodePool.Del, h]

theorem Del_entries (n : NodePool) (id : String) :
    (n.Del id).entries = KVMap.Delete n.entries id := by
  cases h : KVMap.Load n.entries id with
  | none => rw [Del_absent n id h, KVMap.Delete_of_Load_none _ _ h]
  | some v => rw [Del_present n id v h]

theorem Del_Load_self (n : NodePool) (id : String) :
    KVMap.Load (n.Del id).entries id = none := by
  rw [Del_entries]
  exact KVMap.Load_Delete_self _ _

theorem Delete_of_not_mem_keys {V : Type} (m : KVMap V) (key : String)
    (h : key ∉ KVMap.keys m) : KVMap.Delete m key = m := by
  apply KVMap.Delete_of_Load_none
  induction m with
  | nil => rfl
  | cons p m ih =>
    obtain ⟨k, v⟩ := p
    simp only [KVMap.keys, List.map_cons, List.mem_cons, not_or] at h
    rw [KVMap.Load_cons, if_neg (Ne.symm h.1)]
    exact ih h.2

/-- Registration keeps the keys of the pool distinct. -/
theorem register_keys_nodup (env : Env) (n p : NodePool) (a : Registration)
    (r : Result sharedNodeCtx) (h : n.register env a = some (p, r))
    (hnd : (KVMap.keys n.entries).Nodup) : (KVMap.keys p.entries).Nodup := by
  cases r with
  | err e => rw [(register_err_entries env n p a e h).1]; exact hnd
  | ok v =>
    obtain ⟨_, nodeId, sn, _, hp⟩ := register_ok env n p a v h
    rw [hp]
    exact KVMap.keys_Store_nodup _ _ _ hnd

/-- Deletion keeps the keys of the pool distinct. -/
theorem Del_keys_nodup (n : NodePool) (id : String) (hnd : (KVMap.keys n.entries).Nodup) :
    (KVMap.keys (n.Del id).entries).Nodup := by
  rw [Del_entries]
  exact KVMap.keys_Delete_nodup _ _ hnd

/-- The teardown calls and removals that `Stop` makes for the entries `m`. -/
theorem Stop_fold (m : KVMap sharedNodeCtx) (ev : List Event)
    (hnd : (KVMap.keys m).Nodup) :
    (KVMap.keys m).foldl NodePool.Del { entries := m, events := ev } =
      { entries := [],
        events := ev ++ m.flatMap (fun kv => [kv.2.Destroy, Event.EntriesDelete kv.1]) } := by
  induction m generalizing ev with
  | nil => simp [KVMap.keys]
  | cons p m ih =>
    obtain ⟨k, v⟩ := p
    simp only [KVMap.keys, List.map_cons, List.nodup_cons] at hnd
    have hdel : ({ entries := (k, v) :: m, events := ev } : NodePool).Del k =
        { entries := m, events := ev ++ [v.Destroy, Event.EntriesDelete k] } := by
      rw [Del_present _ k v (by simp [KVMap.Load_cons])]
      simp only [KVMap.Delete_cons, if_true]
      rw [Delete_of_not_mem_keys m k hnd.1]
    simp only [KVMap.keys, List.map_cons, List.foldl_cons, hdel]
    have := ih (ev ++ [v.Destroy, Event.EntriesDelete k]) hnd.2
    simp only [KVMap.keys] at this
    rw [this]
    simp [List.flatMap_cons]

theorem isTeardown_Destroy (v : sharedNodeCtx) : v.Destroy.isTeardown = true := by
  unfold sharedNodeCtx.Destroy
  cases v.EndpointCtx <;> rfl

theorem filter_isTeardown_flatMap (m : KVMap sharedNodeCtx) :
    (m.flatMap (fun kv => [kv.2.Destroy, Event.EntriesDelete kv.1])).filter Event.isTeardown =
      m.map (fun kv => kv.2.Destroy) := by
  induction m with
  | nil => rfl
  | cons p m ih =>
    have h1 : List.filter Event.isTeardown [p.2.Destroy, Event.EntriesDelete p.1] =
        [p.2.Destroy] := by
      rw [List.filter_cons, if_pos (isTeardown_Destroy p.2)]
      rfl
    simp only [List.flatMap_cons, List.filter_append, ih, List.map_cons, h1]
    rfl

theorem loadEndpoints_eq (env : Env) (n : NodePool) (l : List (Option types.EndpointDsl)) :
    NodePool.loadEndpoints env n l =
      n.registerAll env ((l.filterMap id).map Registration.endpoint) := by
  induction l generalizing n with
  | nil => rfl
  | cons o l ih =>
    cases o with
    | none => simpa [NodePool.loadEndpoints] using ih n
    | some item =>
      simp only [NodePool.loadEndpoints, List.filterMap_cons, id, List.map_cons,
        NodePool.registerAll, NodePool.register]
      cases NodePool.NewFromEndpoint env n item with
      | none => rfl
      | some pr =>
        obtain ⟨n1, r⟩ := pr
        cases r with
        | err e => rfl
        | ok v => exact ih n1

theorem loadNodes_eq (env : Env) (n : NodePool) (l : List (Option types.RuleNode)) :
    NodePool.loadNodes env n l =
      n.registerAll env ((l.filterMap id).map Registration.node) := by
  induction l generalizing n with
  | nil => rfl
  | cons o l ih =>
    cases o with
    | none => simpa [NodePool.loadNodes] using ih n
    | some item =>
      simp only [NodePool.loadNodes, List.filterMap_cons, id, List.map_cons,
        NodePool.registerAll, NodePool.register]
      cases NodePool.NewFromRuleNode env n item with
      | none => rfl
      | some pr =>
        obtain ⟨n1, r⟩ := pr
        cases r with
        | err e => rfl
        | ok v => exact ih n1

/-- Attempts that all succeed hand the pool on to the attempts that follow. -/
theorem registerAll_append_ok (env : Env) (n nk : NodePool) (pre rest : List Registration)
    (h : n.registerAll env pre = some (nk, none)) :
    n.registerAll env (pre ++ rest) = nk.registerAll env rest := by
  induction pre generalizing n with
  | nil =>
    simp only [NodePool.registerAll, Option.some.injEq, Prod.mk.injEq, and_true] at h
    rw [h]; rfl
  | cons a pre ih =>
    simp only [List.cons_append, NodePool.registerAll] at h ⊢
    cases hr : n.register env a with
    | none => simp [hr] at h
    | some pr =>
      obtain ⟨n1, r⟩ := pr
      cases r with
      | err e => simp [hr] at h
      | ok v =>
        simp only [hr] at h ⊢
        exact ih n1 h

/-- Attempts that stop at a failure ignore the attempts that follow. -/
theorem registerAll_append_err (env : Env) (n p : NodePool) (e : Error)
    (pre rest : List Registration) (h : n.registerAll env pre = some (p, some e)) :
    n.registerAll env (pre ++ rest) = some (p, some e) := by
  induction pre generalizing n with
  | nil => simp [NodePool.registerAll] at h
  | cons a pre ih =>
    simp only [List.cons_append, NodePool.registerAll] at h ⊢
    cases hr : n.register env a with
    | none => simp [hr] at h
    | some pr =>
      obtain ⟨n1, r⟩ := pr
      cases r with
      | err e1 => simpa [hr] using h
      | ok v =>
        simp only [hr] at h ⊢
        exact ih n1 h

theorem registerAll_isSome (env : Env) (n : NodePool) (l : List Registration) :
    ∃ r, n.registerAll env l = some r := by
  induction l generalizing n with
  | nil => exact ⟨_, rfl⟩
  | cons a l ih =>
    obtain ⟨p, r, hr, _⟩ := register_isSome env n a
    simp only [NodePool.registerAll, hr]
    cases r with
    | err e => exact ⟨_, rfl⟩
    | ok v => exact ih p

theorem LoadFromRuleChain_eq (env : Env) (n : NodePool) (d : types.RuleChain) :
    NodePool.LoadFromRuleChain env n d =
      (n.registerAll env (attempts d)).map NodePool.loadResult := by
  unfold NodePool.LoadFromRuleChain attempts
  rw [loadEndpoints_eq]
  cases h1 : n.registerAll env ((d.Metadata.Endpoints.filterMap id).map Registration.endpoint) with
  | none =>
    obtain ⟨r, hr⟩ := registerAll_isSome env n
      ((d.Metadata.Endpoints.filterMap id).map Registration.endpoint)
    rw [hr] at h1
    cases h1
  | some pr =>
    obtain ⟨n1, oe⟩ := pr
    cases oe with
    | some e =>
      rw [registerAll_append_err env n n1 e _ _ h1]
      rfl
    | none =>
      rw [registerAll_append_ok env n n1 _ _ h1]
      simp only []
      rw [loadNodes_eq]
      cases n1.registerAll env ((d.Metadata.Nodes.filterMap id).map Registration.node) with
      | none => rfl
      | some pr2 =>
        obtain ⟨n2, oe2⟩ := pr2
        cases oe2 <;> rfl

theorem Decodable_iff (env : Env) (ctx : sharedNodeCtx) :
    Decodable env ctx = true ↔
      ∃ dsl d sn, ctx.DSL = some dsl ∧ env.DecodeRuleNode dsl = .ok d ∧
        ctx.SharedNode = some sn := by
  unfold Decodable
  cases hd : ctx.DSL with
  | none => simp
  | some dsl =>
    cases he : env.DecodeRuleNode dsl with
    | err e => simp [he]
    | ok d =>
      cases hs : ctx.SharedNode with
      | none => simp [he]
      | some sn => simp [he]

theorem Store_ne_nil {V : Type} (m : KVMap V) (key : String) (v : V) :
    KVMap.Store m key v ≠ [] := by
  cases m with
  | nil => simp [KVMap.Store]
  | cons p m =>
    obtain ⟨k, x⟩ := p
    rw [KVMap.Store_cons]
    split_ifs <;> simp

theorem mem_Store {V : Type} (m : KVMap V) (key : String) (v : V) (g : String × V)
    (h : g ∈ KVMap.Store m key v) : g ∈ m ∨ g = (key, v) := by
  induction m with
  | nil =>
    simp only [KVMap.Store, List.mem_singleton] at h
    exact Or.inr h
  | cons p m ih =>
    obtain ⟨k, x⟩ := p
    rw [KVMap.Store_cons] at h
    split_ifs at h with hk
    · rcases List.mem_cons.1 h with h1 | h1
      · exact Or.inr h1
      · exact Or.inl (List.mem_cons_of_mem _ h1)
    · rcases List.mem_cons.1 h with h1 | h1
      · exact Or.inl (h1 ▸ List.mem_cons_self _ _)
      · rcases ih h1 with h2 | h2
        · exact Or.inl (List.mem_cons_of_mem _ h2)
        · exact Or.inr h2

theorem defCount_eq_zero (m : KVMap (List types.RuleNode)) (hm : ∀ g ∈ m, g.2 ≠ []) :
    defCount m = 0 ↔ m = [] := by
  cases m with
  | nil => simp [defCount]
  | cons g m =>
    have hg : g.2.length ≠ 0 := fun h => hm g (List.mem_cons_self _ _) (List.length_eq_zero.1 h)
    simp only [defCount, List.map_cons, List.sum_cons]
    constructor
    · intro h
      omega
    · intro h
      cases h

/-- Entries that can all be listed are visited to the end; the map built from
them is then the starting point for the entries that follow. -/
theorem visit_prefix (env : Env) (pre : KVMap sharedNodeCtx)
    (acc : KVMap (List types.RuleNode)) (hpre : ∀ kv ∈ pre, Decodable env kv.2 = true) :
    ∃ m, NodePool.GetAllDef.visit env pre acc = some (m, none) ∧
      (∀ rest, NodePool.GetAllDef.visit env (pre ++ rest) acc =
        NodePool.GetAllDef.visit env rest m) ∧
      (acc ≠ [] → m ≠ []) ∧ (pre ≠ [] → m ≠ []) ∧ (pre = [] → m = acc) ∧
      ((∀ g ∈ acc, g.2 ≠ []) → ∀ g ∈ m, g.2 ≠ []) := by
  induction pre generalizing acc with
  | nil => exact ⟨acc, rfl, fun _ => rfl, id, fun h => absurd rfl h, fun _ => rfl, id⟩
  | cons p pre ih =>
    obtain ⟨k, ctx⟩ := p
    obtain ⟨dsl, d, sn, hdsl, hdec, hsn⟩ :=
      (Decodable_iff env ctx).1 (hpre (k, ctx) (List.mem_cons_self _ _))
    have hrest : ∀ kv ∈ pre, Decodable env kv.2 = true :=
      fun kv hkv => hpre kv (List.mem_cons_of_mem _ hkv)
    cases hl : KVMap.Load acc sn.Type_ with
    | none =>
      obtain ⟨m, hm, happ, hne, _, _, hgrp⟩ := ih (KVMap.Store acc sn.Type_ [d]) hrest
      refine ⟨m, ?_, fun rest => ?_, fun _ => hne (Store_ne_nil _ _ _),
        fun _ => hne (Store_ne_nil _ _ _), fun h => (by cases h), fun hacc => hgrp ?_⟩
      · simp only [NodePool.GetAllDef.visit, hdsl, hdec, hsn, hl]
        exact hm
      · simp only [List.cons_append, NodePool.GetAllDef.visit, hdsl, hdec, hsn, hl]
        exact happ rest
      · intro g hg
        rcases mem_Store _ _ _ g hg with h1 | h1
        · exact hacc g h1
        · rw [h1]
          exact List.cons_ne_nil _ _
    | some item =>
      have hacc : acc ≠ [] := by
        intro h
        rw [h] at hl
        cases hl
      obtain ⟨m, hm, happ, hne, _, _, hgrp⟩ := ih acc hrest
      refine ⟨m, ?_, fun rest => ?_, fun _ => hne hacc, fun _ => hne hacc,
        fun h => (by cases h), hgrp⟩
      · simp only [NodePool.GetAllDef.visit, hdsl, hdec, hsn, hl]
        exact hm
      · simp only [List.cons_append, NodePool.GetAllDef.visit, hdsl, hdec, hsn, hl]
        exact happ rest

/-! ### Duplicate ids -/

/-- C1: when the id `r` is registered, `NewFromRuleNode` and `NewFromEndpoint`
called with a definition whose id is `r` return the duplicate-id error and no
entry, and hand back the pool as it was: the same entries (so `Get r` still gives
the entry registered first) and the same events (so no factory was called). -/
theorem NewFrom_duplicate_id (env : Env) (n : NodePool) (r : String) (first : sharedNodeCtx)
    (h : n.Get r = (some first, true)) :
    (∀ d : types.RuleNode, d.Id = r →
      NodePool.NewFromRuleNode env n d = some (n, .err ⟨"duplicate node id:" ++ r⟩)) ∧
    (∀ d : types.EndpointDsl, d.RuleNode.Id = r →
      NodePool.NewFromEndpoint env n d = some (n, .err ⟨"duplicate node id:" ++ r⟩)) := by
  rw [Get_eq_some] at h
  constructor
  · intro d hd
    have := register_eq env n (.node d)
    simp only [NodePool.register, Registration.Id, hd, h] at this
    exact this
  · intro d hd
    have := register_eq env n (.endpoint d)
    simp only [NodePool.register, Registration.Id, hd, h] at this
    exact this

/-- The sample pool rejects a second `"db1"` from either method. -/
theorem NewFrom_duplicate_id_witness :
    samplePool.Get "db1" = (some (sampleEntry "db1" 0), true) ∧
    NodePool.NewFromRuleNode sampleEnv samplePool (sampleNode "db1" "mqttClient") =
      some (samplePool, .err ⟨"duplicate node id:db1"⟩) ∧
    NodePool.NewFromEndpoint sampleEnv samplePool (sampleEndpoint "db1" "mqttClient") =
      some (samplePool, .err ⟨"duplicate node id:db1"⟩) :=
  ⟨by decide,
   (NewFrom_duplicate_id sampleEnv samplePool "db1" (sampleEntry "db1" 0) (by decide)).1 _ rfl,
   (NewFrom_duplicate_id sampleEnv samplePool "db1" (sampleEntry "db1" 0) (by decide)).2 _ rfl⟩

/-! ### No silent overwrite -/

/-- C2, evaluated: two endpoints are declared without id on the same address.
Each passes the duplicate check, which looks up the id of the definition (`""`),
and each is stored under the node id of its built context (`":9090"`).  The
second call succeeds: the key it stores under was registered before the call, it
differs from the id of the definition passed in, and the first entry is replaced
without an error and without its `Destroy`. -/
theorem NewFromEndpoint_replaces_entry :
    (addrEndpoint "first").RuleNode.Id = "" ∧
    NodePool.NewFromEndpoint addrEnv NodePool.NewNodePool (addrEndpoint "first") =
      some (addrPoolFirst, .ok (addrEntry "first" 0)) ∧
    addrPoolFirst.Get ":9090" = (some (addrEntry "first" 0), true) ∧
    (addrEndpoint "second").RuleNode.Id = "" ∧
    addrPoolFirst.Get (addrEndpoint "second").RuleNode.Id = (none, false) ∧
    NodePool.NewFromEndpoint addrEnv addrPoolFirst (addrEndpoint "second") =
      some (addrPoolSecond, .ok (addrEntry "second" 1)) ∧
    (addrEntry "second" 1).GetNodeId = some ⟨":9090", 0⟩ ∧
    addrPoolSecond.Get ":9090" = (some (addrEntry "second" 1), true) ∧
    addrEntry "second" 1 ≠ addrEntry "first" 0 ∧
    addrPoolSecond.GetAll = [addrEntry "second" 1] ∧
    addrPoolSecond.events.filter Event.isTeardown = [] := by
  decide

/-! ### Register, reject, delete, register again -/

/-- C3: from the empty pool, with a factory that builds for `db1` a shared
component whose context reports the id `"db1"`: the first `NewFromRuleNode db1`
succeeds, the second returns the duplicate error and changes nothing, and after
`Del "db1"` the third succeeds and `Get "db1"` returns the entry wrapped around
the context that the third factory call built.  For every pool and id, after
`Del id` the id is free, so a registration with that id gets past the duplicate
check and reaches the factory. -/
theorem db1_scenario (env : Env) (db1 : types.RuleNode) (hid : db1.Id = "db1")
    (hf : ∀ tr, ∃ ctx sn, env.InitNetResourceNodeCtx tr db1 = .ok ctx ∧
      ctx.Node.SharedNode = some sn ∧ ctx.GetNodeId.Id = "db1") :
    (∃ n1 e1 n3 ctx3,
      NodePool.NewFromRuleNode env NodePool.NewNodePool db1 = some (n1, .ok e1) ∧
      n1.Get "db1" = (some e1, true) ∧
      NodePool.NewFromRuleNode env n1 db1 = some (n1, .err ⟨"duplicate node id:db1"⟩) ∧
      (n1.Del "db1").Get "db1" = (none, false) ∧
      env.InitNetResourceNodeCtx (n1.Del "db1").events db1 = .ok ctx3 ∧
      NodePool.NewFromRuleNode env (n1.Del "db1") db1 =
        some (n3, .ok (newSharedNodeCtx (some ctx3) none)) ∧
      n3.Get "db1" = (some (newSharedNodeCtx (some ctx3) none), true)) ∧
    (∀ (n : NodePool) (a : Registration),
      (n.Del a.Id).Get a.Id = (none, false) ∧
      ∃ p r, (n.Del a.Id).register env a = some (p, r) ∧
        p.events = (n.Del a.Id).events ++ [a.factoryCall]) := by
  constructor
  · obtain ⟨ctx1, sn1, hc1, hs1, hi1⟩ := hf NodePool.NewNodePool.events
    have hb1 : (Registration.node db1).build env NodePool.NewNodePool.events =
        .ok (newSharedNodeCtx (some ctx1) none, ctx1.GetNodeId, some sn1) := by
      simp only [Registration.build, hc1, hs1]
    have h1 := register_build_shared env NodePool.NewNodePool (.node db1) _ _ _ rfl hb1
    rw [hi1] at h1
    have hl1 : KVMap.Load (KVMap.Store NodePool.NewNodePool.entries "db1"
        (newSharedNodeCtx (some ctx1) none)) "db1" = some (newSharedNodeCtx (some ctx1) none) :=
      KVMap.Load_Store_self _ _ _
    have h2 := register_eq env
      { entries := KVMap.Store NodePool.NewNodePool.entries "db1"
          (newSharedNodeCtx (some ctx1) none),
        events := NodePool.NewNodePool.events ++ [(Registration.node db1).factoryCall] }
      (.node db1)
    simp only [Registration.Id, hid, hl1] at h2
    obtain ⟨ctx3, sn3, hc3, hs3, hi3⟩ := hf (NodePool.Del
      { entries := KVMap.Store NodePool.NewNodePool.entries "db1"
          (newSharedNodeCtx (some ctx1) none),
        events := NodePool.NewNodePool.events ++ [(Registration.node db1).factoryCall] }
      "db1").events
    have hb3 := register_build_shared env (NodePool.Del
      { entries := KVMap.Store NodePool.NewNodePool.entries "db1"
          (newSharedNodeCtx (some ctx1) none),
        events := NodePool.NewNodePool.events ++ [(Registration.node db1).factoryCall] }
      "db1") (.node db1) (newSharedNodeCtx (some ctx3) none) ctx3.GetNodeId sn3
      (by simp only [Registration.Id, hid]; exact Del_Load_self _ _)
      (by simp only [Registration.build, hc3, hs3])
    rw [hi3] at hb3
    refine ⟨_, _, _, ctx3, h1, (Get_eq_some _ _ _).2 hl1, h2,
      (Get_eq_none _ _).2 (Del_Load_self _ _), hc3, hb3, ?_⟩
    exact (Get_eq_some _ _ _).2 (KVMap.Load_Store_self _ _ _)
  · intro n a
    refine ⟨(Get_eq_none _ _).2 (Del_Load_self _ _), ?_⟩
    obtain ⟨p, r, hr, hev⟩ := register_isSome env (n.Del a.Id) a
    exact ⟨p, r, hr, hev (Del_Load_self _ _)⟩

theorem sampleEnv_builds_db1 (tr : List Event) :
    ∃ ctx sn, sampleEnv.InitNetResourceNodeCtx tr (sampleNode "db1" "mqttClient") = .ok ctx ∧
      ctx.Node.SharedNode = some sn ∧ ctx.GetNodeId.Id = "db1" :=
  ⟨{ Node := ⟨some ⟨"mqttClient", .ok ("db1" ++ "#" ++ toString tr.length)⟩⟩,
     GetNodeId := ⟨"db1", 1⟩, DSL := "db1" },
   ⟨"mqttClient", .ok ("db1" ++ "#" ++ toString tr.length)⟩, by simp [sampleEnv, sampleNode],
   rfl, rfl⟩

/-- The scenario run with the sample factory. -/
theorem db1_scenario_witness :
    (sampleNode "db1" "mqttClient").Id = "db1" ∧
    (∀ tr, ∃ ctx sn,
      sampleEnv.InitNetResourceNodeCtx tr (sampleNode "db1" "mqttClient") = .ok ctx ∧
      ctx.Node.SharedNode = some sn ∧ ctx.GetNodeId.Id = "db1") ∧
    ∃ n1 e1 n3 ctx3,
      NodePool.NewFromRuleNode sampleEnv NodePool.NewNodePool (sampleNode "db1" "mqttClient") =
        some (n1, .ok e1) ∧
      n1.Get "db1" = (some e1, true) ∧
      NodePool.NewFromRuleNode sampleEnv n1 (sampleNode "db1" "mqttClient") =
        some (n1, .err ⟨"duplicate node id:db1"⟩) ∧
      (n1.Del "db1").Get "db1" = (none, false) ∧
      sampleEnv.InitNetResourceNodeCtx (n1.Del "db1").events (sampleNode "db1" "mqttClient") =
        .ok ctx3 ∧
      NodePool.NewFromRuleNode sampleEnv (n1.Del "db1") (sampleNode "db1" "mqttClient") =
        some (n3, .ok (newSharedNodeCtx (some ctx3) none)) ∧
      n3.Get "db1" = (some (newSharedNodeCtx (some ctx3) none), true) :=
  ⟨rfl, sampleEnv_builds_db1,
   (db1_scenario sampleEnv (sampleNode "db1" "mqttClient") rfl sampleEnv_builds_db1).1⟩

/-! ### Bulk load -/

/-- C4: `LoadFromRuleChain` runs the attempts of the spec, in its order (non-nil
endpoints, then non-nil nodes), stopping at the first failure.  When the attempts
`pre` succeed and the next one `a` fails with `e`, it returns `e`, the entries
are those left by `pre` (no rollback), and nothing was called for the attempts
after `a`; when all succeed it returns the pool.  `Load` returns the error of
the decoder with the pool untouched, and runs `LoadFromRuleChain` otherwise. -/
theorem LoadFromRuleChain_spec (env : Env) (n : NodePool) :
    (∀ d, NodePool.LoadFromRuleChain env n d =
      (n.registerAll env (attempts d)).map NodePool.loadResult) ∧
    (∀ d pre a post nk p e, attempts d = pre ++ a :: post →
      n.registerAll env pre = some (nk, none) →
      nk.register env a = some (p, .err e) →
      NodePool.LoadFromRuleChain env n d = some (p, .err e) ∧
      p.entries = nk.entries ∧
      (p.events = nk.events ∨ p.events = nk.events ++ [a.factoryCall])) ∧
    (∀ d p, n.registerAll env (attempts d) = some (p, none) →
      NodePool.LoadFromRuleChain env n d = some (p, .ok p)) ∧
    (∀ dsl e, env.DecodeRuleChain dsl = .err e → NodePool.Load env n dsl = some (n, .err e)) ∧
    (∀ dsl d, env.DecodeRuleChain dsl = .ok d →
      NodePool.Load env n dsl = NodePool.LoadFromRuleChain env n d) := by
  refine ⟨LoadFromRuleChain_eq env n, ?_, ?_, ?_, ?_⟩
  · intro d pre a post nk p e hsplit hpre ha
    refine ⟨?_, register_err_entries env nk p a e ha⟩
    rw [LoadFromRuleChain_eq, hsplit, registerAll_append_ok env n nk pre _ hpre]
    simp only [NodePool.registerAll, ha]
    rfl
  · intro d p h
    rw [LoadFromRuleChain_eq, h]
    rfl
  · intro dsl e h
    simp only [NodePool.Load, h]
  · intro dsl d h
    simp only [NodePool.Load, h]

/-- Loading the sample chain into the sample pool: `"ws1"` is registered, then
`"db1"` is a duplicate, and `"db2"` is never attempted. -/
theorem LoadFromRuleChain_spec_witness :
    attempts sampleChain =
      [Registration.endpoint (sampleEndpoint "ws1" "ws")] ++
        Registration.node (sampleNode "db1" "mqttClient") ::
          [Registration.node (sampleNode "db2" "mqttClient")] ∧
    samplePool.registerAll sampleEnv [Registration.endpoint (sampleEndpoint "ws1" "ws")] =
      some (samplePoolWs, none) ∧
    samplePoolWs.register sampleEnv (Registration.node (sampleNode "db1" "mqttClient")) =
      some (samplePoolWs, .err ⟨"duplicate node id:db1"⟩) ∧
    NodePool.LoadFromRuleChain sampleEnv samplePool sampleChain =
      some (samplePoolWs, .err ⟨"duplicate node id:db1"⟩) ∧
    sampleEnv.DecodeRuleChain "bad" = .err ⟨"unexpected end of JSON input"⟩ ∧
    NodePool.Load sampleEnv samplePool "bad" =
      some (samplePool, .err ⟨"unexpected end of JSON input"⟩) :=
  ⟨by decide, by decide, by decide,
   ((LoadFromRuleChain_spec sampleEnv samplePool).2.1 sampleChain
      [Registration.endpoint (sampleEndpoint "ws1" "ws")]
      (Registration.node (sampleNode "db1" "mqttClient"))
      [Registration.node (sampleNode "db2" "mqttClient")]
      samplePoolWs samplePoolWs ⟨"duplicate node id:db1"⟩
      (by decide) (by decide) (by decide)).1,
   by decide,
   (LoadFromRuleChain_spec sampleEnv samplePool).2.2.2.1 "bad" _ (by decide)⟩

/-! ### Factory and capability errors -/

/-- C5: for a definition whose id is not registered, an error of the component
factory is returned as it is, and a built component without the `SharedNode`
capability gives `ErrNotImplemented`; either way no entry is returned, the
entries of the pool are the ones before the call, and the trace grew by the one
factory call. -/
theorem NewFrom_factory_failure (env : Env) (n : NodePool) :
    (∀ d : types.RuleNode, n.Get d.Id = (none, false) →
      (∀ e, env.InitNetResourceNodeCtx n.events d = .err e →
        NodePool.NewFromRuleNode env n d =
          some ({ entries := n.entries,
                  events := n.events ++ [Event.InitNetResourceNodeCtx d] }, .err e)) ∧
      (∀ ctx, env.InitNetResourceNodeCtx n.events d = .ok ctx → ctx.Node.SharedNode = none →
        NodePool.NewFromRuleNode env n d =
          some ({ entries := n.entries,
                  events := n.events ++ [Event.InitNetResourceNodeCtx d] },
                .err ErrNotImplemented))) ∧
    (∀ d : types.EndpointDsl, n.Get d.RuleNode.Id = (none, false) →
      (∀ e, env.NewFromDef n.events ⟨d.RuleNode, [], []⟩ = .err e →
        NodePool.NewFromEndpoint env n d =
          some ({ entries := n.entries,
                  events := n.events ++ [Event.NewFromDef ⟨d.RuleNode, [], []⟩] }, .err e)) ∧
      (∀ ctx, env.NewFromDef n.events ⟨d.RuleNode, [], []⟩ = .ok ctx →
        ctx.Target.SharedNode = none →
        NodePool.NewFromEndpoint env n d =
          some ({ entries := n.entries,
                  events := n.events ++ [Event.NewFromDef ⟨d.RuleNode, [], []⟩] },
                .err ErrNotImplemented))) := by
  refine ⟨fun d hd => ⟨fun e he => ?_, fun ctx hc hs => ?_⟩,
          fun d hd => ⟨fun e he => ?_, fun ctx hc hs => ?_⟩⟩
  · exact register_build_err env n (.node d) e ((Get_eq_none _ _).1 hd)
      (by simp only [Registration.build, he])
  · exact register_build_unshared env n (.node d) (newSharedNodeCtx (some ctx) none)
      ctx.GetNodeId ((Get_eq_none _ _).1 hd) (by simp only [Registration.build, hc, hs])
  · exact register_build_err env n (.endpoint d) e ((Get_eq_none _ _).1 hd)
      (by simp only [Registration.build, he])
  · exact register_build_unshared env n (.endpoint d) (newSharedNodeCtx none (some ctx))
      ctx.GetNodeId ((Get_eq_none _ _).1 hd) (by simp only [Registration.build, hc, hs])

/-- On the sample pool: the type `"unknown"` makes the factory fail, the type
`"log"` builds a component that cannot be shared. -/
theorem NewFrom_factory_failure_witness :
    samplePool.Get "n2" = (none, false) ∧
    NodePool.NewFromRuleNode sampleEnv samplePool (sampleNode "n2" "unknown") =
      some ({ entries := samplePool.entries,
              events := samplePool.events ++
                [Event.InitNetResourceNodeCtx (sampleNode "n2" "unknown")] },
            .err ⟨"component not found"⟩) ∧
    NodePool.NewFromEndpoint sampleEnv samplePool (sampleEndpoint "n2" "log") =
      some ({ entries := samplePool.entries,
              events := samplePool.events ++
                [Event.NewFromDef ⟨sampleNode "n2" "log", [], []⟩] },
            .err ErrNotImplemented) :=
  ⟨by decide,
   ((NewFrom_factory_failure sampleEnv samplePool).1 (sampleNode "n2" "unknown")
      (by decide)).1 ⟨"component not found"⟩ (by decide),
   ((NewFrom_factory_failure sampleEnv samplePool).2 (sampleEndpoint "n2" "log")
      (by decide)).2 ⟨⟨none⟩, ⟨none⟩, ⟨"n2", 0⟩, "n2"⟩ (by decide) (by decide)⟩

/-! ### Deletion -/

/-- C6: `Del id` on a registered id makes exactly one teardown call, the
`Destroy` of the entry found, and makes it before the key is removed; on an id
that is not registered it changes nothing and calls nothing.  Afterwards `Get id`
reports not found, `GetInstance id` returns the not-found error, and every other
id maps to what it mapped to before. -/
theorem Del_spec (n : NodePool) (id : String) :
    (∀ v, n.Get id = (some v, true) →
      (n.Del id).events = n.events ++ [v.Destroy, Event.EntriesDelete id] ∧
      (n.Del id).entries = KVMap.Delete n.entries id) ∧
    (n.Get id = (none, false) → n.Del id = n) ∧
    (n.Del id).Get id = (none, false) ∧
    (n.Del id).GetInstance id = some (.err ⟨"node resource not found id=" ++ id⟩) ∧
    (∀ other, other ≠ id → (n.Del id).Get other = n.Get other) := by
  have hnone : (n.Del id).Get id = (none, false) := (Get_eq_none _ _).2 (Del_Load_self n id)
  refine ⟨fun v hv => ?_, fun h => Del_absent n id ((Get_eq_none _ _).1 h), hnone, ?_, ?_⟩
  · rw [Del_present n id v ((Get_eq_some _ _ _).1 hv)]
    exact ⟨rfl, rfl⟩
  · simp only [NodePool.GetInstance, hnone]
  · intro other hne
    simp only [NodePool.Get, Del_entries, KVMap.Load_Delete_ne _ _ _ hne]

/-- Deleting `"db1"` from the sample pool with the endpoint `"ws1"`. -/
theorem Del_spec_witness :
    samplePoolWs.Get "db1" = (some (sampleEntry "db1" 0), true) ∧
    (samplePoolWs.Del "db1").events =
      samplePoolWs.events ++ [(sampleEntry "db1" 0).Destroy, Event.EntriesDelete "db1"] ∧
    (samplePoolWs.Del "db1").entries = [("ws1", sampleWs)] ∧
    samplePoolWs.Get "zz" = (none, false) ∧
    samplePoolWs.Del "zz" = samplePoolWs ∧
    (samplePoolWs.Del "db1").Get "ws1" = samplePoolWs.Get "ws1" :=
  ⟨by decide,
   ((Del_spec samplePoolWs "db1").1 _ (by decide)).1,
   ((Del_spec samplePoolWs "db1").1 (sampleEntry "db1" 0) (by decide)).2,
   by decide,
   (Del_spec samplePoolWs "zz").2.1 (by decide),
   (Del_spec samplePoolWs "db1").2.2.2.2 "ws1" (by decide)⟩

/-! ### Shutdown -/

/-- C7: after `Stop` the pool is empty (`GetAll` is empty, `Get` finds no id), and
the calls made are, for each entry that was registered and in visiting order, one
`Destroy` of that entry followed by the removal of its key: the teardown calls
made by `Stop` are the `Destroy` of each entry, once.  The keys of a map are
distinct. -/
theorem Stop_spec (n : NodePool) (hnd : (KVMap.keys n.entries).Nodup) :
    n.Stop.GetAll = [] ∧
    (∀ id, n.Stop.Get id = (none, false)) ∧
    n.Stop.events =
      n.events ++ n.entries.flatMap (fun kv => [kv.2.Destroy, Event.EntriesDelete kv.1]) ∧
    (n.Stop.events.drop n.events.length).filter Event.isTeardown =
      n.GetAll.map sharedNodeCtx.Destroy := by
  have h := Stop_fold n.entries n.events hnd
  have hs : n.Stop = { entries := [], events := n.events ++
      n.entries.flatMap (fun kv => [kv.2.Destroy, Event.EntriesDelete kv.1]) } := h
  rw [hs]
  refine ⟨rfl, fun id => rfl, rfl, ?_⟩
  simp only [List.drop_left, filter_isTeardown_flatMap, NodePool.GetAll, List.map_map]
  rfl

/-- Stopping the sample pool that holds `"db1"` and `"ws1"`. -/
theorem Stop_spec_witness :
    (KVMap.keys samplePoolWs.entries).Nodup ∧
    samplePoolWs.Stop.GetAll = [] ∧
    samplePoolWs.Stop.Get "db1" = (none, false) ∧
    (samplePoolWs.Stop.events.drop samplePoolWs.events.length).filter Event.isTeardown =
      [(sampleEntry "db1" 0).Destroy, sampleWs.Destroy] :=
  ⟨by decide,
   (Stop_spec samplePoolWs (by decide)).1,
   (Stop_spec samplePoolWs (by decide)).2.1 "db1",
   (Stop_spec samplePoolWs (by decide)).2.2.2⟩

/-! ### Listing definitions -/

/-- C8, evaluated: two live entries of type `"mqttClient"`, both decoding, come
back as a group of one.  The second definition is appended to the local slice
`item` only, never put back into the map, so the map holds one definition for
two entries. -/
theorem GetAllDef_same_type_group_of_one :
    samplePoolTwo.GetAll.length = 2 ∧
    samplePoolTwo.GetAll.all (Decodable sampleEnv) = true ∧
    samplePoolTwo.GetAll.map (fun c => c.SharedNode.map (fun sn => sn.Type_)) =
      [some "mqttClient", some "mqttClient"] ∧
    NodePool.GetAllDef sampleEnv samplePoolTwo =
      some ([("mqttClient", [sampleNode "db1" "mqttClient"])], none) ∧
    defCount [("mqttClient", [sampleNode "db1" "mqttClient"])] = 1 := by
  decide

/-! ### Listing definitions: decode failure -/

/-- C9 fails as stated: the entry `"db1"` decodes and is visited first, the entry
`"bad"` does not decode; the error comes back together with a map that holds the
definition of `"db1"`. -/
theorem GetAllDef_partial_map :
    NodePool.GetAllDef sampleEnv samplePoolBad =
      some ([("mqttClient", [sampleNode "db1" "mqttClient"])],
            some ⟨"unexpected end of JSON input"⟩) ∧
    defCount [("mqttClient", [sampleNode "db1" "mqttClient"])] ≠ 0 := by
  decide

/-- C9, amended: when the entry `bad` is the first visited whose DSL does not
decode (the entries `pre` visited before it can be listed), `GetAllDef` returns
the decode error `e` of `bad`, visits none of the entries `post`, and returns
with the error the map `m` built from `pre`, the same map it returns for a pool
holding `pre` alone: it holds no definitions only when `bad` is visited first. -/
theorem GetAllDef_decode_failure (env : Env) (pre post : KVMap sharedNodeCtx)
    (key : String) (bad : sharedNodeCtx) (dsl : String) (e : Error) (ev : List Event)
    (hpre : ∀ kv ∈ pre, Decodable env kv.2 = true)
    (hdsl : bad.DSL = some dsl) (hbad : env.DecodeRuleNode dsl = .err e) :
    ∃ m, NodePool.GetAllDef env { entries := pre, events := ev } = some (m, none) ∧
      NodePool.GetAllDef env { entries := pre ++ (key, bad) :: post, events := ev } =
        some (m, some e) ∧
      (defCount m = 0 ↔ pre = []) := by
  obtain ⟨m, hm, happ, _, hne, hnil, hgrp⟩ := visit_prefix env pre [] hpre
  have hgroups : ∀ g ∈ m, g.2 ≠ [] := hgrp (fun g hg => absurd hg (List.not_mem_nil g))
  refine ⟨m, hm, ?_, ?_⟩
  · show NodePool.GetAllDef.visit env (pre ++ (key, bad) :: post) [] = some (m, some e)
    rw [happ]
    simp only [NodePool.GetAllDef.visit, hdsl, hbad]
  · rw [defCount_eq_zero m hgroups]
    constructor
    · intro h
      by_contra hp
      exact hne hp h
    · exact hnil

theorem sampleEntry_db1_Decodable :
    ∀ kv ∈ [("db1", sampleEntry "db1" 0)], Decodable sampleEnv kv.2 = true := by
  intro kv hkv
  simp only [List.mem_singleton] at hkv
  subst hkv
  decide

/-- The sample pool whose second entry does not decode. -/
theorem GetAllDef_decode_failure_witness :
    (∀ kv ∈ [("db1", sampleEntry "db1" 0)], Decodable sampleEnv kv.2 = true) ∧
    (sampleEntry "bad" 1).DSL = some "bad" ∧
    sampleEnv.DecodeRuleNode "bad" = .err ⟨"unexpected end of JSON input"⟩ ∧
    ∃ m,
      NodePool.GetAllDef sampleEnv { entries := [("db1", sampleEntry "db1" 0)], events := [] } =
        some (m, none) ∧
      NodePool.GetAllDef sampleEnv
        { entries := [("db1", sampleEntry "db1" 0)] ++
            ("bad", sampleEntry "bad" 1) :: [("db3", sampleEntry "db3" 2)],
          events := [] } = some (m, some ⟨"unexpected end of JSON input"⟩) ∧
      (defCount m = 0 ↔ [("db1", sampleEntry "db1" 0)] = []) :=
  ⟨sampleEntry_db1_Decodable, by decide, by decide,
   GetAllDef_decode_failure sampleEnv [("db1", sampleEntry "db1" 0)]
     [("db3", sampleEntry "db3" 2)] "bad" (sampleEntry "bad" 1) "bad"
     ⟨"unexpected end of JSON input"⟩ [] sampleEntry_db1_Decodable (by decide) (by decide)⟩

end node_pool

/-! ## The tenant registry -/

namespace service

/-- A `Get` for any user keeps a stored service where it is and starts no
bootstrap for its user. -/
theorem Get_keeps_stored (env : Env) (s s1 : UserRuleEngineService) (t u : String)
    (v : RuleEngineService) (r : Option RuleEngineService × Bool)
    (ht : KVMap.Load s.Pool t = some v) (h : UserRuleEngineService.Get env s u = some (s1, r)) :
    KVMap.Load s1.Pool t = some v ∧ s1.inits.count t = s.inits.count t := by
  unfold UserRuleEngineService.Get at h
  cases hu : KVMap.Load s.Pool u with
  | some w =>
    simp only [hu, Option.some.injEq, Prod.mk.injEq] at h
    rw [← h.1]
    exact ⟨ht, rfl⟩
  | none =>
    have hne : t ≠ u := by
      intro heq
      rw [heq, hu] at ht
      cases ht
    have hcount : (s.inits ++ [u]).count t = s.inits.count t := by
      rw [List.count_append, List.count_singleton]
      simp [Ne.symm hne]
    simp only [hu, UserRuleEngineService.Init] at h
    cases hb : NewRuleEngineServiceAndInitRuleGo env s.inits s.config u with
    | none => simp [hb] at h
    | some res =>
      cases res with
      | ok w =>
        simp only [hb, Option.some.injEq, Prod.mk.injEq] at h
        rw [← h.1]
        exact ⟨by simpa [KVMap.Load_Store_ne _ _ _ _ hne] using ht, hcount⟩
      | err e =>
        simp only [hb, Option.some.injEq, Prod.mk.injEq] at h
        rw [← h.1]
        exact ⟨ht, hcount⟩

theorem runGets_keeps_stored (env : Env) (s s2 : UserRuleEngineService) (t : String)
    (v : RuleEngineService) (us : List String)
    (ht : KVMap.Load s.Pool t = some v) (h : UserRuleEngineService.runGets env s us = some s2) :
    KVMap.Load s2.Pool t = some v ∧ s2.inits.count t = s.inits.count t := by
  induction us generalizing s with
  | nil =>
    simp only [UserRuleEngineService.runGets, Option.some.injEq] at h
    rw [← h]
    exact ⟨ht, rfl⟩
  | cons u us ih =>
    simp only [UserRuleEngineService.runGets] at h
    cases hg : UserRuleEngineService.Get env s u with
    | none => simp [hg] at h
    | some pr =>
      obtain ⟨s1, r⟩ := pr
      simp only [hg] at h
      obtain ⟨h1, hc1⟩ := Get_keeps_stored env s s1 t u v r ht hg
      obtain ⟨h2, hc2⟩ := ih s1 h1 h
      exact ⟨h2, hc2.trans hc1⟩

theorem Get_hit (env : Env) (s : UserRuleEngineService) (t : String) (v : RuleEngineService)
    (ht : KVMap.Load s.Pool t = some v) :
    UserRuleEngineService.Get env s t = some (s, (some v, true)) := by
  simp only [UserRuleEngineService.Get, ht]

/-- A `Get` leaves the slots of the other users as they were. -/
theorem Get_other_slots (env : Env) (s s1 : UserRuleEngineService) (t u : String)
    (r : Option RuleEngineService × Bool) (h : UserRuleEngineService.Get env s t = some (s1, r))
    (hu : u ≠ t) : KVMap.Load s1.Pool u = KVMap.Load s.Pool u := by
  unfold UserRuleEngineService.Get at h
  cases ht : KVMap.Load s.Pool t with
  | some w =>
    simp only [ht, Option.some.injEq, Prod.mk.injEq] at h
    rw [← h.1]
  | none =>
    simp only [ht, UserRuleEngineService.Init] at h
    cases hb : NewRuleEngineServiceAndInitRuleGo env s.inits s.config t with
    | none => simp [hb] at h
    | some res =>
      cases res with
      | ok w =>
        simp only [hb, Option.some.injEq, Prod.mk.injEq] at h
        rw [← h.1]
        exact KVMap.Load_Store_ne _ _ _ _ hu
      | err e =>
        simp only [hb, Option.some.injEq, Prod.mk.injEq] at h
        rw [← h.1]

/-! ### First access bootstraps, later accesses find -/

/-- C10: in a sequential run, `Get t` for a tenant `t` that the registry does not
hold starts exactly one bootstrap.  When the bootstrap returns the service `v`,
`Get` returns `(v, true)` and stores `v` under `t`; after any later run of `Get`
calls, `Get t` returns `(v, true)` again with the registry unchanged, and the
number of bootstraps started for `t` stays what it was.  When the bootstrap
returns an error, `Get` returns `(nil, false)` and the map is unchanged.  A
`Get t`, hit or miss, never changes what the map holds for another tenant. -/
theorem Get_bootstraps_once (env : Env) (s : UserRuleEngineService) (t : String) :
    (KVMap.Load s.Pool t = none →
      (∀ v, NewRuleEngineServiceAndInitRuleGo env s.inits s.config t = some (.ok v) →
        ∃ s1, UserRuleEngineService.Get env s t = some (s1, (some v, true)) ∧
          s1.inits = s.inits ++ [t] ∧
          KVMap.Load s1.Pool t = some v ∧
          ∀ us s2, UserRuleEngineService.runGets env s1 us = some s2 →
            UserRuleEngineService.Get env s2 t = some (s2, (some v, true)) ∧
            s2.inits.count t = s1.inits.count t) ∧
      (∀ e, NewRuleEngineServiceAndInitRuleGo env s.inits s.config t = some (.err e) →
        UserRuleEngineService.Get env s t =
          some ({ Pool := s.Pool, config := s.config, inits := s.inits ++ [t] },
                (none, false)))) ∧
    (∀ s1 r, UserRuleEngineService.Get env s t = some (s1, r) →
      ∀ u, u ≠ t → KVMap.Load s1.Pool u = KVMap.Load s.Pool u) := by
  refine ⟨fun hmiss => ⟨fun v hv => ?_, fun e he => ?_⟩,
    fun s1 r h u hu => Get_other_slots env s s1 t u r h hu⟩
  · refine ⟨{ Pool := KVMap.Store s.Pool t v, config := s.config, inits := s.inits ++ [t] },
      ?_, rfl, KVMap.Load_Store_self _ _ _, fun us s2 hrun => ?_⟩
    · simp only [UserRuleEngineService.Get, hmiss, UserRuleEngineService.Init, hv]
    · obtain ⟨h2, hc⟩ :=
        runGets_keeps_stored env _ s2 t v us (KVMap.Load_Store_self _ _ _) hrun
      exact ⟨Get_hit env s2 t v h2, hc⟩
  · simp only [UserRuleEngineService.Get, hmiss, UserRuleEngineService.Init, he]

/-- The sample registry: `"alice"` is bootstrapped once and found afterwards;
without storage the bootstrap fails and nothing is stored. -/
theorem Get_bootstraps_once_witness :
    KVMap.Load sampleRegistry.Pool "alice" = none ∧
    NewRuleEngineServiceAndInitRuleGo sampleEnv sampleRegistry.inits sampleRegistry.config
      "alice" = some (.ok sampleAlice) ∧
    (∃ s1, UserRuleEngineService.Get sampleEnv sampleRegistry "alice" =
        some (s1, (some sampleAlice, true)) ∧
      s1.inits = sampleRegistry.inits ++ ["alice"] ∧
      KVMap.Load s1.Pool "alice" = some sampleAlice ∧
      ∀ us s2, UserRuleEngineService.runGets sampleEnv s1 us = some s2 →
        UserRuleEngineService.Get sampleEnv s2 "alice" = some (s2, (some sampleAlice, true)) ∧
        s2.inits.count "alice" = s1.inits.count "alice") ∧
    KVMap.Load sampleRegistryNoData.Pool "alice" = none ∧
    UserRuleEngineService.Get sampleEnv sampleRegistryNoData "alice" =
      some ({ Pool := [], config := ⟨"", 0, false⟩, inits := ["alice"] }, (none, false)) :=
  ⟨by decide, by decide,
   ((Get_bootstraps_once sampleEnv sampleRegistry "alice").1 (by decide)).1 sampleAlice
     (by decide),
   by decide,
   ((Get_bootstraps_once sampleEnv sampleRegistryNoData "alice").1 (by decide)).2
     ⟨"data dir is empty"⟩ (by decide)⟩

/-! ## The engine service -/

/-! ### Lemmas on the operations -/

/-- The additional info that `fillAdditionalInfo` leaves, spelled out. -/
theorem fillAdditionalInfo_info (s : RuleEngineService) (d : types.RuleChain) (nowStr : String) :
    (s.fillAdditionalInfo d nowStr).RuleChain.AdditionalInfo =
      some (KVMap.Store
        (match KVMap.Load (KVMap.Store (d.RuleChain.AdditionalInfo.getD [])
            constants.KeyUsername s.username) "createTime" with
         | some _ => KVMap.Store (d.RuleChain.AdditionalInfo.getD [])
            constants.KeyUsername s.username
         | none => KVMap.Store (KVMap.Store (d.RuleChain.AdditionalInfo.getD [])
            constants.KeyUsername s.username) "createTime" nowStr)
        "updateTime" nowStr) := rfl

/-- Apart from the additional info, `fillAdditionalInfo` returns its argument. -/
theorem fillAdditionalInfo_rest (s : RuleEngineService) (d : types.RuleChain) (nowStr : String) :
    (s.fillAdditionalInfo d nowStr).Metadata = d.Metadata ∧
    (s.fillAdditionalInfo d nowStr).RuleChain.ID = d.RuleChain.ID ∧
    (s.fillAdditionalInfo d nowStr).RuleChain.Name = d.RuleChain.Name ∧
    (s.fillAdditionalInfo d nowStr).RuleChain.DebugMode = d.RuleChain.DebugMode ∧
    (s.fillAdditionalInfo d nowStr).RuleChain.Root = d.RuleChain.Root ∧
    (s.fillAdditionalInfo d nowStr).RuleChain.Disabled = d.RuleChain.Disabled ∧
    (s.fillAdditionalInfo d nowStr).RuleChain.Configuration = d.RuleChain.Configuration :=
  ⟨rfl, rfl, rfl, rfl, rfl, rfl, rfl⟩

/-- What a lookup finds in the additional info that `fillAdditionalInfo` leaves. -/
theorem fillAdditionalInfo_Load (s : RuleEngineService) (d : types.RuleChain) (nowStr : String) :
    ∃ info, (s.fillAdditionalInfo d nowStr).RuleChain.AdditionalInfo = some info ∧
      KVMap.Load info "updateTime" = some nowStr ∧
      KVMap.Load info constants.KeyUsername = some s.username ∧
      KVMap.Load info "createTime" =
        (match KVMap.Load (d.RuleChain.AdditionalInfo.getD []) "createTime" with
         | some c => some c
         | none => some nowStr) ∧
      ∀ k, k ≠ "createTime" → k ≠ "updateTime" → k ≠ constants.KeyUsername →
        KVMap.Load info k = KVMap.Load (d.RuleChain.AdditionalInfo.getD []) k := by
  have hcu : ("createTime" : String) ≠ constants.KeyUsername := by decide
  have huu : ("updateTime" : String) ≠ constants.KeyUsername := by decide
  have hcup : ("createTime" : String) ≠ "updateTime" := by decide
  refine ⟨_, fillAdditionalInfo_info s d nowStr, KVMap.Load_Store_self _ _ _, ?_, ?_, ?_⟩
  · rw [KVMap.Load_Store_ne _ _ _ _ (Ne.symm huu)]
    rw [KVMap.Load_Store_ne _ _ _ _ hcu]
    cases KVMap.Load (d.RuleChain.AdditionalInfo.getD []) "createTime" with
    | some c => exact KVMap.Load_Store_self _ _ _
    | none =>
      simp only []
      rw [KVMap.Load_Store_ne _ _ _ _ (Ne.symm hcu)]
      exact KVMap.Load_Store_self _ _ _
  · rw [KVMap.Load_Store_ne _ _ _ _ hcup]
    rw [KVMap.Load_Store_ne _ _ _ _ hcu]
    cases hc : KVMap.Load (d.RuleChain.AdditionalInfo.getD []) "createTime" with
    | some c =>
      simp only []
      rw [KVMap.Load_Store_ne _ _ _ _ hcu]
      exact hc
    | none =>
      simp only []
      exact KVMap.Load_Store_self _ _ _
  · intro k hk1 hk2 hk3
    rw [KVMap.Load_Store_ne _ _ _ _ hk2]
    rw [KVMap.Load_Store_ne _ _ _ _ hcu]
    cases KVMap.Load (d.RuleChain.AdditionalInfo.getD []) "createTime" with
    | some c =>
      simp only []
      rw [KVMap.Load_Store_ne _ _ _ _ hk3]
    | none =>
      simp only []
      rw [KVMap.Load_Store_ne _ _ _ _ hk1, KVMap.Load_Store_ne _ _ _ _ hk3]

theorem lastEvents_length (m : Nat) (l : List DebugData) :
    (lastEvents m l).length = min m l.length := by
  simp only [lastEvents, List.length_drop]
  omega

/-- Keeping the last `m` before more events arrive loses nothing of the last `m`
after they arrived. -/
theorem lastEvents_append (m : Nat) (a r : List DebugData) :
    lastEvents m (lastEvents m a ++ r) = lastEvents m (a ++ r) := by
  by_cases h : a.length ≤ m
  · have h0 : a.length - m = 0 := by omega
    simp only [lastEvents, h0, List.drop_zero]
  · have hk : a.length - m ≤ a.length := by omega
    have hlen : (List.drop (a.length - m) a).length = m := by
      rw [List.length_drop]; omega
    simp only [lastEvents, List.length_append, hlen]
    have e1 : m + r.length - m = r.length := by omega
    have e2 : a.length + r.length - m = (a.length - m) + r.length := by omega
    rw [e1, e2, ← List.drop_drop, List.drop_append_of_le_length hk]

theorem Add_MaxSize (d : RuleChainDebugData) (chainId nodeId : String) (data : DebugData) :
    (d.Add chainId nodeId data).MaxSize = d.MaxSize := rfl

theorem Add_Get_self (d : RuleChainDebugData) (chainId nodeId : String) (data : DebugData) :
    (d.Add chainId nodeId data).Get chainId nodeId =
      RuleChainDebugData.push d.MaxSize (d.Get chainId nodeId) data := by
  simp only [RuleChainDebugData.Add, RuleChainDebugData.Get, KVMap.Load_Store_self,
    Option.getD_some]

theorem Add_Get_other (d : RuleChainDebugData) (chainId nodeId c n : String) (data : DebugData)
    (h : ¬ (chainId = c ∧ nodeId = n)) :
    (d.Add chainId nodeId data).Get c n = d.Get c n := by
  by_cases hc : c = chainId
  · subst hc
    have hn : n ≠ nodeId := fun e => h ⟨rfl, e.symm⟩
    simp only [RuleChainDebugData.Add, RuleChainDebugData.Get, KVMap.Load_Store_self,
      Option.getD_some, KVMap.Load_Store_ne _ _ _ _ hn]
  · simp only [RuleChainDebugData.Add, RuleChainDebugData.Get,
      KVMap.Load_Store_ne _ _ _ _ hc]

theorem addAll_MaxSize (d : RuleChainDebugData) (evs : List (String × String × DebugData)) :
    (d.addAll evs).MaxSize = d.MaxSize := by
  induction evs generalizing d with
  | nil => rfl
  | cons ev evs ih =>
    obtain ⟨c, n, x⟩ := ev
    simp only [RuleChainDebugData.addAll]
    rw [ih, Add_MaxSize]

/-- The buffer of a node after a sequence was recorded: the last `MaxSize` of
what it held followed by the events of the sequence for that node. -/
theorem addAll_Get (d : RuleChainDebugData) (evs : List (String × String × DebugData))
    (c n : String) (hd : d.Get c n = lastEvents d.MaxSize.toNat (d.Get c n)) :
    (d.addAll evs).Get c n = lastEvents d.MaxSize.toNat (d.Get c n ++ eventsOf c n evs) := by
  induction evs generalizing d with
  | nil =>
    simp only [RuleChainDebugData.addAll, eventsOf, List.filter_nil, List.map_nil,
      List.append_nil]
    exact hd
  | cons ev evs ih =>
    obtain ⟨c1, n1, x⟩ := ev
    simp only [RuleChainDebugData.addAll]
    by_cases h : c1 = c ∧ n1 = n
    · obtain ⟨hc, hn⟩ := h
      subst hc hn
      have hpush : (d.Add c1 n1 x).Get c1 n1 = lastEvents d.MaxSize.toNat (d.Get c1 n1 ++ [x]) := by
        rw [Add_Get_self]; rfl
      have hd2 : (d.Add c1 n1 x).Get c1 n1 =
          lastEvents (d.Add c1 n1 x).MaxSize.toNat ((d.Add c1 n1 x).Get c1 n1) := by
        rw [Add_MaxSize, hpush]
        have := lastEvents_append d.MaxSize.toNat (d.Get c1 n1 ++ [x]) []
        simpa using this.symm
      rw [ih (d.Add c1 n1 x) hd2, Add_MaxSize, hpush, lastEvents_append]
      simp [eventsOf, List.filter_cons]
    · rw [ih (d.Add c1 n1 x) (by rw [Add_MaxSize, Add_Get_other d c1 n1 c n x h]; exact hd),
        Add_MaxSize, Add_Get_other d c1 n1 c n x h]
      simp [eventsOf, List.filter_cons, h]

/-- The loop of `OnDebug` dispatches to the observers registered for the chain
id, one notification each, in visiting order. -/
theorem OnDebug_loop_eq (chainId flowType nodeId msg relationType : String)
    (err : Option Error) (m : KVMap DebugObserver) :
    RuleEngineService.OnDebug.loop chainId flowType nodeId msg relationType err m =
      (m.filter (fun o => decide (o.2.chainId = chainId))).map
        (fun o => Effect.Notify o.2 chainId flowType nodeId msg relationType err) := by
  induction m with
  | nil => rfl
  | cons p m ih =>
    obtain ⟨k, observer⟩ := p
    by_cases h : observer.chainId = chainId
    · simp [RuleEngineService.OnDebug.loop, h, ih, List.filter_cons]
    · simp [RuleEngineService.OnDebug.loop, h, ih, List.filter_cons]

theorem dao_Get_put (d : dao.RuleDao) (username chainId b : String) :
    (d.put username chainId b).Get username chainId = .ok b := by
  simp only [dao.RuleDao.put, dao.RuleDao.Get, KVMap.Load_Store_self]

theorem dao_Get_remove (d : dao.RuleDao) (username chainId : String) :
    (d.remove username chainId).Get username chainId =
      .err (dao.RuleDao.ErrNotFound username chainId) := by
  unfold dao.RuleDao.remove
  cases h : KVMap.Load d.docs username with
  | none => simp only [dao.RuleDao.Get, h]
  | some m => simp only [dao.RuleDao.Get, KVMap.Load_Store_self, KVMap.Load_Delete_self]

/-- What `Redeploy` does, by the instance found and the outcome of the compiler. -/
theorem Redeploy_eq (deps : Deps) (s : RuleEngineService) (chainId def_ : String) :
    RuleEngineService.Redeploy deps s chainId def_ =
      match deps.Compile s.effects chainId def_ with
      | .ok d =>
        ({ s with
           Pool := KVMap.Store s.Pool chainId { Definition := d },
           effects := s.effects ++
             [if (KVMap.Load s.Pool chainId).isSome then Effect.ReloadSelf chainId def_
              else Effect.PoolNew chainId def_] }, none)
      | .err e =>
        ({ s with
           effects := s.effects ++
             [if (KVMap.Load s.Pool chainId).isSome then Effect.ReloadSelf chainId def_
              else Effect.PoolNew chainId def_] }, some e) := by
  unfold RuleEngineService.Redeploy RuleEngineService.PoolGet
  cases KVMap.Load s.Pool chainId with
  | some e =>
    simp only [RuleEngineService.ReloadSelf]
    cases deps.Compile s.effects chainId def_ <;> rfl
  | none =>
    simp only [RuleEngineService.PoolNew]
    cases deps.Compile s.effects chainId def_ <;> rfl

/-- A write that the persistence delegate accepts. -/
theorem DaoSave_ok (deps : Deps) (s : RuleEngineService) (username chainId b : String)
    (h : deps.DaoSave s.effects username chainId b = none) :
    RuleEngineService.DaoSave deps s username chainId b =
      ({ s with effects := s.effects ++ [Effect.DaoSave username chainId b],
                ruleDao := s.ruleDao.put username chainId b }, none) := by
  simp only [RuleEngineService.DaoSave, h]

/-- A write that the persistence delegate refuses. -/
theorem DaoSave_err (deps : Deps) (s : RuleEngineService) (username chainId b : String)
    (e : Error) (h : deps.DaoSave s.effects username chainId b = some e) :
    RuleEngineService.DaoSave deps s username chainId b =
      ({ s with effects := s.effects ++ [Effect.DaoSave username chainId b] }, some e) := by
  simp only [RuleEngineService.DaoSave, h]

/-- `Save` of an enabled definition that compiles: the instance is replaced or
created, then the stamped definition is encoded and handed to the persistence
delegate. -/
theorem Save_enabled_eq (deps : Deps) (s : RuleEngineService) (chainId def_ nowStr : String)
    (rc dc : types.RuleChain) (b : String)
    (hdec : deps.Unmarshal def_ = .ok rc) (hen : rc.RuleChain.Disabled = false)
    (hred : deps.Compile s.effects chainId def_ = .ok dc)
    (hm : deps.Marshal (s.fillAdditionalInfo rc nowStr) = .ok b) :
    RuleEngineService.Save deps s chainId def_ nowStr =
      RuleEngineService.DaoSave deps
        { s with
          Pool := KVMap.Store s.Pool chainId { Definition := dc },
          effects := s.effects ++
            [if (KVMap.Load s.Pool chainId).isSome then Effect.ReloadSelf chainId def_
             else Effect.PoolNew chainId def_] }
        s.username chainId b := by
  have hdis : (s.fillAdditionalInfo rc nowStr).RuleChain.Disabled = false := hen
  simp only [RuleEngineService.Save, hdec, hdis, if_true, Redeploy_eq, hred,
    RuleEngineService.Save.persist, hm]

/-- `Save` of an enabled definition that does not compile returns the error
right after the redeploy attempt: the persistence delegate is never called. -/
theorem Save_redeploy_failure (deps : Deps) (s : RuleEngineService)
    (chainId def_ nowStr : String) (rc : types.RuleChain) (e : Error)
    (hdec : deps.Unmarshal def_ = .ok rc) (hen : rc.RuleChain.Disabled = false)
    (hred : deps.Compile s.effects chainId def_ = .err e) :
    RuleEngineService.Save deps s chainId def_ nowStr =
      ({ s with
         effects := s.effects ++
           [if (KVMap.Load s.Pool chainId).isSome then Effect.ReloadSelf chainId def_
            else Effect.PoolNew chainId def_] }, some e) := by
  have hdis : (s.fillAdditionalInfo rc nowStr).RuleChain.Disabled = false := hen
  simp only [RuleEngineService.Save, hdec, hdis, if_true, Redeploy_eq, hred]

/-- A table with distinct keys gives back under a key the value found with it. -/
theorem table_roundtrip (t : KVMap types.RuleChain) (hnd : (KVMap.keys t).Nodup)
    (d : types.RuleChain) (p : String × types.RuleChain)
    (h : t.find? (fun p => decide (p.2 = d)) = some p) :
    KVMap.Load t p.1 = some d := by
  induction t with
  | nil => simp at h
  | cons q t ih =>
    obtain ⟨k, v⟩ := q
    simp only [KVMap.keys, List.map_cons, List.nodup_cons] at hnd
    rw [List.find?_cons] at h
    by_cases hv : v = d
    · simp only [hv, decide_True] at h
      cases h
      simp [KVMap.Load_cons, hv]
    · simp only [hv, decide_False] at h
      have hmem : p ∈ t := List.mem_of_find?_eq_some h
      have hne : k ≠ p.1 := by
        intro e
        apply hnd.1
        rw [e]
        exact List.mem_map_of_mem Prod.fst hmem
      rw [KVMap.Load_cons, if_neg hne]
      exact ih hnd.2 h

/-- The sample storage accepts every write of chain `"c1"`. -/
theorem sampleDeps_writes_c1 (tr : List Effect) (username b : String) :
    sampleDeps.DaoSave tr username "c1" b = none := by
  simp [sampleDeps]

/-! ### Saving a workflow -/

/-- C11: `Save` of a well-formed definition with `Disabled = false` whose
redeploy succeeds and whose persistence write succeeds returns nil; the `Get`
that follows returns the bytes written, the encoding of the stamped definition.
They decode to a definition with `Disabled = false`, with `updateTime` equal to
the clock reading of the `Save`, and with the graph, the header fields and every
additional-info entry other than the three stamped ones as in the input. -/
theorem Save_enabled_then_Get (deps : Deps) (s : RuleEngineService)
    (chainId def_ nowStr : String) (rc : types.RuleChain) (b : String)
    (hdec : deps.Unmarshal def_ = .ok rc) (hen : rc.RuleChain.Disabled = false)
    (hred : ∃ dc, deps.Compile s.effects chainId def_ = .ok dc)
    (hcodec : deps.Codec (s.fillAdditionalInfo rc nowStr) b)
    (hwrite : ∀ tr, deps.DaoSave tr s.username chainId b = none) :
    ∃ s1, RuleEngineService.Save deps s chainId def_ nowStr = (s1, none) ∧
      s1.Get chainId = .ok b ∧
      (∃ e, s1.PoolGet chainId = (some e, true)) ∧
      ∃ d info, deps.Unmarshal b = .ok d ∧
        d.RuleChain.Disabled = false ∧
        d.RuleChain.AdditionalInfo = some info ∧
        KVMap.Load info "updateTime" = some nowStr ∧
        (∀ k, k ≠ "createTime" → k ≠ "updateTime" → k ≠ constants.KeyUsername →
          KVMap.Load info k = KVMap.Load (rc.RuleChain.AdditionalInfo.getD []) k) ∧
        d.Metadata = rc.Metadata ∧
        d.RuleChain.ID = rc.RuleChain.ID ∧
        d.RuleChain.Name = rc.RuleChain.Name ∧
        d.RuleChain.DebugMode = rc.RuleChain.DebugMode ∧
        d.RuleChain.Root = rc.RuleChain.Root ∧
        d.RuleChain.Configuration = rc.RuleChain.Configuration := by
  obtain ⟨dc, hdc⟩ := hred
  obtain ⟨info, hinfo, hup, _, _, hother⟩ := fillAdditionalInfo_Load s rc nowStr
  rw [Save_enabled_eq deps s chainId def_ nowStr rc dc b hdec hen hdc hcodec.1,
    DaoSave_ok deps _ _ _ _ (hwrite _)]
  refine ⟨_, rfl, ?_, ?_, s.fillAdditionalInfo rc nowStr, info, hcodec.2, hen, hinfo, hup,
    hother, rfl, rfl, rfl, rfl, rfl, rfl⟩
  · simp only [RuleEngineService.Get]
    exact dao_Get_put _ _ _ _
  · refine ⟨{ Definition := dc }, ?_⟩
    simp only [RuleEngineService.PoolGet, KVMap.Load_Store_self]

/-- Saving the sample definition as chain `"c1"` of `"alice"` at time `"T1"`. -/
theorem Save_enabled_then_Get_witness :
    sampleDeps.Unmarshal "def" = .ok sampleDef ∧
    sampleDef.RuleChain.Disabled = false ∧
    (∃ dc, sampleDeps.Compile sampleAlice.effects "c1" "def" = .ok dc) ∧
    sampleDeps.Codec (sampleAlice.fillAdditionalInfo sampleDef "T1") "def@T1" ∧
    (∀ tr, sampleDeps.DaoSave tr sampleAlice.username "c1" "def@T1" = none) ∧
    ∃ s1, RuleEngineService.Save sampleDeps sampleAlice "c1" "def" "T1" = (s1, none) ∧
      s1.Get "c1" = .ok "def@T1" ∧
      ∃ d info, sampleDeps.Unmarshal "def@T1" = .ok d ∧
        d.RuleChain.Disabled = false ∧
        d.RuleChain.AdditionalInfo = some info ∧
        KVMap.Load info "updateTime" = some "T1" ∧
        d.Metadata = sampleDef.Metadata := by
  have hcodec : sampleDeps.Codec (sampleAlice.fillAdditionalInfo sampleDef "T1") "def@T1" :=
    ⟨by decide, by decide⟩
  obtain ⟨s1, hs, hg, _, d, info, hd, hdis, hinfo, hup, _, hmeta, _⟩ :=
    Save_enabled_then_Get sampleDeps sampleAlice "c1" "def" "T1" sampleDef "def@T1"
      (by decide) (by decide) ⟨sampleDef, by decide⟩ hcodec
      (fun tr => sampleDeps_writes_c1 tr _ _)
  exact ⟨by decide, by decide, ⟨sampleDef, by decide⟩, hcodec,
    fun tr => sampleDeps_writes_c1 tr _ _,
    s1, hs, hg, d, info, hd, hdis, hinfo, hup, hmeta⟩

/-! ### Saving a workflow that does not compile -/

/-- C12, evaluated: chain `"c1"` is persisted enabled; `Save` with a definition
that decodes, is enabled and fails to compile returns the compile error, and the
only call it made is the reload.  The `Get` that follows returns the document
persisted before, with `Disabled = false` and no `message` entry; on a service
that had persisted nothing, `Get` reports not found. -/
theorem Save_compile_failure_not_persisted :
    sampleDeps.Unmarshal "broken" = .ok sampleBroken ∧
    sampleBroken.RuleChain.Disabled = false ∧
    RuleEngineService.Save sampleDeps sampleDeployed "c1" "broken" "T2" =
      ({ sampleDeployed with effects := [Effect.ReloadSelf "c1" "broken"] },
       some ⟨"component not found: nosuchtype"⟩) ∧
    (RuleEngineService.Save sampleDeps sampleDeployed "c1" "broken" "T2").1.Get "c1" =
      .ok "def@T1" ∧
    sampleDeps.Unmarshal "def@T1" = .ok (sampleAlice.fillAdditionalInfo sampleDef "T1") ∧
    (sampleAlice.fillAdditionalInfo sampleDef "T1").RuleChain.Disabled = false ∧
    KVMap.Load ((sampleAlice.fillAdditionalInfo sampleDef "T1").RuleChain.AdditionalInfo.getD [])
      "message" = none ∧
    RuleEngineService.Save sampleDeps sampleAlice "c1" "broken" "T2" =
      ({ sampleAlice with effects := [Effect.PoolNew "c1" "broken"] },
       some ⟨"component not found: nosuchtype"⟩) ∧
    (RuleEngineService.Save sampleDeps sampleAlice "c1" "broken" "T2").1.Get "c1" =
      .err (dao.RuleDao.ErrNotFound "alice" "c1") := by
  decide

/-! ### Deleting a workflow -/

/-- C13: `Delete` removes the id from the instance pool, then asks the
persistence delegate to delete it.  When that fails, the error is returned, the
event purge is not called, and the id stays out of the pool.  When it succeeds,
`DeleteByChainId(username, id)` is called once and its result returned, the id
is absent from the pool, and `Get` reports not found. -/
theorem Delete_spec (deps : Deps) (s : RuleEngineService) (chainId : String) :
    (∀ err, deps.DaoDelete (s.effects ++ [Effect.PoolDel chainId]) s.username chainId =
        some err →
      ∃ s2, RuleEngineService.Delete deps s chainId = (s2, some err) ∧
        s2.effects = s.effects ++
          [Effect.PoolDel chainId, Effect.DaoDelete s.username chainId] ∧
        s2.PoolGet chainId = (none, false) ∧
        s2.ruleDao = s.ruleDao) ∧
    (deps.DaoDelete (s.effects ++ [Effect.PoolDel chainId]) s.username chainId = none →
      ∃ s3, RuleEngineService.Delete deps s chainId =
          (s3, deps.DeleteByChainId
            (s.effects ++ [Effect.PoolDel chainId, Effect.DaoDelete s.username chainId])
            s.username chainId) ∧
        s3.effects = s.effects ++
          [Effect.PoolDel chainId, Effect.DaoDelete s.username chainId,
           Effect.DeleteByChainId s.username chainId] ∧
        s3.PoolGet chainId = (none, false) ∧
        s3.Get chainId = .err (dao.RuleDao.ErrNotFound s.username chainId)) := by
  have hpool : KVMap.Load (KVMap.Delete s.Pool chainId) chainId = none :=
    KVMap.Load_Delete_self _ _
  constructor
  · intro err h
    refine ⟨{ s with Pool := KVMap.Delete s.Pool chainId,
                     effects := s.effects ++ [Effect.PoolDel chainId] ++
                       [Effect.DaoDelete s.username chainId] }, ?_, ?_, ?_, rfl⟩
    · simp only [RuleEngineService.Delete, RuleEngineService.DaoDelete,
        RuleEngineService.PoolDel, h]
    · simp only [List.append_assoc, List.singleton_append]
    · simp only [RuleEngineService.PoolGet, hpool]
  · intro h
    refine ⟨{ s with Pool := KVMap.Delete s.Pool chainId,
                     ruleDao := s.ruleDao.remove s.username chainId,
                     effects := s.effects ++ [Effect.PoolDel chainId] ++
                       [Effect.DaoDelete s.username chainId] ++
                       [Effect.DeleteByChainId s.username chainId] }, ?_, ?_, ?_, ?_⟩
    · simp only [RuleEngineService.Delete, RuleEngineService.DaoDelete,
        RuleEngineService.PoolDel, h, RuleEngineService.DeleteByChainId,
        List.append_assoc, List.singleton_append]
    · simp only [List.append_assoc, List.singleton_append, List.cons_append, List.nil_append]
    · simp only [RuleEngineService.PoolGet, hpool]
    · simp only [RuleEngineService.Get]
      exact dao_Get_remove _ _ _

/-- Deleting the running chain `"c1"` of the sample service, and the chain
`"readonly"` that storage refuses to delete. -/
theorem Delete_spec_witness :
    sampleDeps.DaoDelete (sampleDeployed.effects ++ [Effect.PoolDel "c1"]) "alice" "c1" = none ∧
    (∃ s3, RuleEngineService.Delete sampleDeps sampleDeployed "c1" = (s3, none) ∧
      s3.effects = [Effect.PoolDel "c1", Effect.DaoDelete "alice" "c1",
                    Effect.DeleteByChainId "alice" "c1"] ∧
      s3.PoolGet "c1" = (none, false) ∧
      s3.Get "c1" = .err (dao.RuleDao.ErrNotFound "alice" "c1")) ∧
    sampleDeps.DaoDelete (sampleDeployed.effects ++ [Effect.PoolDel "readonly"]) "alice"
      "readonly" = some ⟨"read-only file system"⟩ ∧
    (∃ s2, RuleEngineService.Delete sampleDeps sampleDeployed "readonly" =
        (s2, some ⟨"read-only file system"⟩) ∧
      s2.effects = [Effect.PoolDel "readonly", Effect.DaoDelete "alice" "readonly"] ∧
      s2.PoolGet "readonly" = (none, false) ∧
      s2.ruleDao = sampleDeployed.ruleDao) :=
  ⟨by decide,
   (Delete_spec sampleDeps sampleDeployed "c1").2 (by decide),
   by decide,
   (Delete_spec sampleDeps sampleDeployed "readonly").1 ⟨"read-only file system"⟩ (by decide)⟩

/-! ### Saving one configuration entry -/

/-- C14: `SaveConfiguration` returns an error and writes nothing when the id is
empty or the workflow is not in the instance pool.  When it is deployed, the
instance is reloaded from the DSL of its definition with `value` put under `key`
and the additional info stamped; when the reload fails the error of the reload
is returned and nothing is written; when it succeeds the compiled DSL of the
instance, formatted, is handed to the persistence delegate, whose result is
returned, and in the definition behind that DSL the configuration holds `value`
under `key` and every other key holds what it held. -/
theorem SaveConfiguration_spec (deps : Deps) (hkeep : deps.CompileKeeps)
    (s : RuleEngineService) (chainId key value nowStr : String) :
    (chainId = "" →
      RuleEngineService.SaveConfiguration deps s chainId key value nowStr =
        (s, some ⟨"chainId 不能为空"⟩)) ∧
    (chainId ≠ "" → s.PoolGet chainId = (none, false) →
      RuleEngineService.SaveConfiguration deps s chainId key value nowStr =
        (s, some ⟨"找不到规则链：" ++ chainId⟩)) ∧
    (∀ e self2, chainId ≠ "" → s.PoolGet chainId = (some e, true) →
      self2 = s.fillAdditionalInfo (withConfiguration e.Definition key value) nowStr →
      (∀ err, deps.Compile s.effects chainId (deps.DSL self2) = .err err →
        ∃ s2, RuleEngineService.SaveConfiguration deps s chainId key value nowStr =
            (s2, some err) ∧
          s2.effects = s.effects ++ [Effect.ReloadSelf chainId (deps.DSL self2)] ∧
          s2.ruleDao = s.ruleDao) ∧
      (∀ d1, deps.Compile s.effects chainId (deps.DSL self2) = .ok d1 →
        ∃ s3, RuleEngineService.SaveConfiguration deps s chainId key value nowStr =
            (s3, deps.DaoSave (s.effects ++ [Effect.ReloadSelf chainId (deps.DSL self2)])
                  s.username chainId (deps.Format (deps.DSL d1))) ∧
          s3.effects = s.effects ++
            [Effect.ReloadSelf chainId (deps.DSL self2),
             Effect.DaoSave s.username chainId (deps.Format (deps.DSL d1))] ∧
          s3.PoolGet chainId = (some { Definition := d1 }, true) ∧
          KVMap.Load d1.RuleChain.Configuration key = some value ∧
          (∀ k, k ≠ key → KVMap.Load d1.RuleChain.Configuration k =
            KVMap.Load e.Definition.RuleChain.Configuration k) ∧
          (deps.DaoSave (s.effects ++ [Effect.ReloadSelf chainId (deps.DSL self2)])
              s.username chainId (deps.Format (deps.DSL d1)) = none →
            s3.Get chainId = .ok (deps.Format (deps.DSL d1))))) := by
  refine ⟨fun h => ?_, fun h hp => ?_, fun e self2 h hp hself => ⟨fun err hc => ?_,
    fun d1 hc => ?_⟩⟩
  · simp only [RuleEngineService.SaveConfiguration, h, ne_eq, not_true_eq_false, if_false]
  · simp only [RuleEngineService.SaveConfiguration, ne_eq, h, not_false_eq_true, if_true, hp]
  · subst hself
    have heq : RuleEngineService.SaveConfiguration deps s chainId key value nowStr =
        ({ s with
           Pool := KVMap.Store s.Pool chainId
             { Definition := s.fillAdditionalInfo (withConfiguration e.Definition key value)
                 nowStr },
           effects := s.effects ++ [Effect.ReloadSelf chainId
             (deps.DSL (s.fillAdditionalInfo (withConfiguration e.Definition key value)
               nowStr))] }, some err) := by
      simp only [RuleEngineService.SaveConfiguration, ne_eq, h, not_false_eq_true, if_true, hp,
        RuleEngineService.ReloadSelf]
      simp only [withConfiguration] at hc
      simp only [hc]
      rfl
    rw [heq]
    exact ⟨_, rfl, rfl, rfl⟩
  · subst hself
    have hd1 := hkeep _ _ _ _ hc
    have heq : RuleEngineService.SaveConfiguration deps s chainId key value nowStr =
        RuleEngineService.DaoSave deps
          { s with
            Pool := KVMap.Store (KVMap.Store s.Pool chainId
              { Definition := s.fillAdditionalInfo (withConfiguration e.Definition key value)
                  nowStr }) chainId { Definition := d1 },
            effects := s.effects ++ [Effect.ReloadSelf chainId
              (deps.DSL (s.fillAdditionalInfo (withConfiguration e.Definition key value)
                nowStr))] }
          s.username chainId (deps.Format (deps.DSL d1)) := by
      simp only [RuleEngineService.SaveConfiguration, ne_eq, h, not_false_eq_true, if_true, hp,
        RuleEngineService.ReloadSelf]
      simp only [withConfiguration] at hc
      simp only [hc]
      rfl
    rw [heq]
    have hcfg : d1.RuleChain.Configuration =
        KVMap.Store e.Definition.RuleChain.Configuration key value := by rw [hd1]; rfl
    cases hw : deps.DaoSave (s.effects ++ [Effect.ReloadSelf chainId
        (deps.DSL (s.fillAdditionalInfo (withConfiguration e.Definition key value) nowStr))])
        s.username chainId (deps.Format (deps.DSL d1)) with
    | some err =>
      rw [DaoSave_err deps _ _ _ _ err hw]
      refine ⟨_, rfl, ?_, ?_, ?_, ?_, fun h0 => by cases h0⟩
      · simp only [List.append_assoc, List.singleton_append]
      · simp only [RuleEngineService.PoolGet, KVMap.Load_Store_self]
      · rw [hcfg]; exact KVMap.Load_Store_self _ _ _
      · intro k hk
        rw [hcfg]; exact KVMap.Load_Store_ne _ _ _ _ hk
    | none =>
      rw [DaoSave_ok deps _ _ _ _ hw]
      refine ⟨_, rfl, ?_, ?_, ?_, ?_, fun _ => ?_⟩
      · simp only [List.append_assoc, List.singleton_append]
      · simp only [RuleEngineService.PoolGet, KVMap.Load_Store_self]
      · rw [hcfg]; exact KVMap.Load_Store_self _ _ _
      · intro k hk
        rw [hcfg]; exact KVMap.Load_Store_ne _ _ _ _ hk
      · simp only [RuleEngineService.Get]
        exact dao_Get_put _ _ _ _

theorem sampleDeps_CompileKeeps : sampleDeps.CompileKeeps := by
  intro tr c d d1 h
  simp only [sampleDeps] at h
  cases hf : sampleDocs.find? (fun p => decide (p.2 = d)) with
  | none =>
    simp only [hf] at h
    have : KVMap.Load sampleDocs "" = none := by decide
    simp [this] at h
  | some p =>
    simp only [hf] at h
    have hl := table_roundtrip sampleDocs (by decide) d p hf
    split_ifs at h
    simp only [hl, Result.ok.injEq] at h
    exact h.symm

/-- Saving the entry `env = prod` of the running chain `"c1"`, and the same for
a chain that is not deployed. -/
theorem SaveConfiguration_spec_witness :
    sampleDeps.CompileKeeps ∧
    sampleDeployed.PoolGet "c1" =
      (some { Definition := sampleAlice.fillAdditionalInfo sampleDef "T1" }, true) ∧
    sampleDeps.Compile sampleDeployed.effects "c1" "def@T2" =
      .ok (sampleAlice.fillAdditionalInfo (sampleAlice.fillAdditionalInfo sampleDef "T1") "T2") ∧
    (∃ s3, RuleEngineService.SaveConfiguration sampleDeps sampleDeployed "c1" "env" "prod" "T2" =
        (s3, none) ∧
      s3.effects = [Effect.ReloadSelf "c1" "def@T2", Effect.DaoSave "alice" "c1" "def@T2"]) ∧
    sampleDeployed.PoolGet "c9" = (none, false) ∧
    RuleEngineService.SaveConfiguration sampleDeps sampleDeployed "c9" "env" "prod" "T2" =
      (sampleDeployed, some ⟨"找不到规则链：c9"⟩) := by
  obtain ⟨s3, hs3, heff, _⟩ :=
    ((SaveConfiguration_spec sampleDeps sampleDeps_CompileKeeps sampleDeployed "c1" "env"
      "prod" "T2").2.2 { Definition := sampleAlice.fillAdditionalInfo sampleDef "T1" }
      (sampleAlice.fillAdditionalInfo (sampleAlice.fillAdditionalInfo sampleDef "T1") "T2")
      (by decide) (by decide) (by decide)).2
      (sampleAlice.fillAdditionalInfo (sampleAlice.fillAdditionalInfo sampleDef "T1") "T2")
      (by decide)
  exact ⟨sampleDeps_CompileKeeps, by decide, by decide, ⟨s3, hs3, heff⟩, by decide,
    (SaveConfiguration_spec sampleDeps sampleDeps_CompileKeeps sampleDeployed "c9" "env"
      "prod" "T2").2.1 (by decide) (by decide)⟩

/-! ### Undeploy, then deploy -/

/-- C15 fails as stated: the chain `"readonly"` is persisted, well-formed and
compiles, but storage refuses the write of `Undeploy`; the error is returned and
the persisted definition still has `Disabled = false`. -/
theorem Undeploy_write_refused :
    sampleDeployed.Get "readonly" = .ok "def@T1" ∧
    sampleDeps.Unmarshal "def@T1" = .ok (sampleAlice.fillAdditionalInfo sampleDef "T1") ∧
    sampleDeps.Compile [] "readonly" "def@T1" =
      .ok (sampleAlice.fillAdditionalInfo sampleDef "T1") ∧
    (RuleEngineService.Undeploy sampleDeps sampleDeployed "readonly").2 =
      some ⟨"read-only file system"⟩ ∧
    (RuleEngineService.Undeploy sampleDeps sampleDeployed "readonly").1.Get "readonly" =
      .ok "def@T1" ∧
    (sampleAlice.fillAdditionalInfo sampleDef "T1").RuleChain.Disabled = false := by
  decide

/-- C15, amended: for a workflow id whose persisted definition `d0` is
well-formed and compiles once enabled, and when the persistence writes succeed:
`Undeploy` returns nil, leaves the id out of the instance pool and persists `d0`
with `Disabled = true` and the same graph; the `Deploy` that follows returns
nil, puts an instance for the id into the pool and persists the definition with
`Disabled = false` and the same graph. -/
theorem Undeploy_then_Deploy (deps : Deps) (s : RuleEngineService)
    (chainId nowStr b0 bOff bOn bSt : String) (d0 : types.RuleChain)
    (hget : s.Get chainId = .ok b0) (hdec : deps.Unmarshal b0 = .ok d0)
    (hoff : deps.Codec (withDisabled d0 true) bOff)
    (hon : deps.Codec (withDisabled d0 false) bOn)
    (hst : deps.Codec (s.fillAdditionalInfo (withDisabled d0 false) nowStr) bSt)
    (hcompile : ∀ tr, ∃ dc, deps.Compile tr chainId bOn = .ok dc)
    (hwrite : ∀ tr b, deps.DaoSave tr s.username chainId b = none) :
    ∃ s1 s2,
      RuleEngineService.Undeploy deps s chainId = (s1, none) ∧
      s1.PoolGet chainId = (none, false) ∧
      s1.Get chainId = .ok bOff ∧
      deps.Unmarshal bOff = .ok (withDisabled d0 true) ∧
      (withDisabled d0 true).RuleChain.Disabled = true ∧
      (withDisabled d0 true).Metadata = d0.Metadata ∧
      RuleEngineService.Deploy deps s1 chainId nowStr = (s2, none) ∧
      (∃ e, s2.PoolGet chainId = (some e, true)) ∧
      s2.Get chainId = .ok bSt ∧
      ∃ d, deps.Unmarshal bSt = .ok d ∧ d.RuleChain.Disabled = false ∧
        d.Metadata = d0.Metadata := by
  have hbytes : s.getBytes chainId = b0 := by simp only [RuleEngineService.getBytes, hget]
  have hun : RuleEngineService.Undeploy deps s chainId =
      ({ s with Pool := KVMap.Delete s.Pool chainId,
                effects := s.effects ++ [Effect.PoolDel chainId] ++
                  [Effect.DaoSave s.username chainId bOff],
                ruleDao := s.ruleDao.put s.username chainId bOff }, none) := by
    simp only [RuleEngineService.Undeploy, hbytes, hdec, hoff.1, RuleEngineService.PoolDel]
    rw [DaoSave_ok deps _ _ _ _ (hwrite _ _)]
  have hdeploy : ∃ s2, RuleEngineService.Deploy deps
        { s with Pool := KVMap.Delete s.Pool chainId,
                 effects := s.effects ++ [Effect.PoolDel chainId] ++
                   [Effect.DaoSave s.username chainId bOff],
                 ruleDao := s.ruleDao.put s.username chainId bOff } chainId nowStr =
          (s2, none) ∧
      (∃ e, s2.PoolGet chainId = (some e, true)) ∧
      s2.Get chainId = .ok bSt ∧
      ∃ d, deps.Unmarshal bSt = .ok d ∧ d.RuleChain.Disabled = false ∧
        d.Metadata = d0.Metadata := by
    obtain ⟨dc, hdc⟩ := hcompile (s.effects ++ [Effect.PoolDel chainId] ++
      [Effect.DaoSave s.username chainId bOff])
    have hbytes1 : RuleEngineService.getBytes
        { s with Pool := KVMap.Delete s.Pool chainId,
                 effects := s.effects ++ [Effect.PoolDel chainId] ++
                   [Effect.DaoSave s.username chainId bOff],
                 ruleDao := s.ruleDao.put s.username chainId bOff } chainId = bOff := by
      simp only [RuleEngineService.getBytes, RuleEngineService.Get, dao_Get_put]
    have hon1 : deps.Marshal (withDisabled (withDisabled d0 true) false) = .ok bOn := hon.1
    have hdep : RuleEngineService.Deploy deps
        { s with Pool := KVMap.Delete s.Pool chainId,
                 effects := s.effects ++ [Effect.PoolDel chainId] ++
                   [Effect.DaoSave s.username chainId bOff],
                 ruleDao := s.ruleDao.put s.username chainId bOff } chainId nowStr =
        RuleEngineService.Save deps
          { s with Pool := KVMap.Delete s.Pool chainId,
                   effects := s.effects ++ [Effect.PoolDel chainId] ++
                     [Effect.DaoSave s.username chainId bOff],
                   ruleDao := s.ruleDao.put s.username chainId bOff } chainId bOn nowStr := by
      simp only [RuleEngineService.Deploy, hbytes1, hoff.2, hon1]
    rw [hdep, Save_enabled_eq deps
      { s with Pool := KVMap.Delete s.Pool chainId,
               effects := s.effects ++ [Effect.PoolDel chainId] ++
                 [Effect.DaoSave s.username chainId bOff],
               ruleDao := s.ruleDao.put s.username chainId bOff }
      chainId bOn nowStr (withDisabled d0 false) dc bSt hon.2 rfl hdc hst.1,
      DaoSave_ok deps _ _ _ _ (hwrite _ _)]
    refine ⟨_, rfl, ⟨{ Definition := dc }, ?_⟩, ?_,
      s.fillAdditionalInfo (withDisabled d0 false) nowStr, hst.2, rfl, rfl⟩
    · simp only [RuleEngineService.PoolGet, KVMap.Load_Store_self]
    · simp only [RuleEngineService.Get]
      exact dao_Get_put _ _ _ _
  obtain ⟨s2, hd2, hpool2, hget2, hdoc2⟩ := hdeploy
  refine ⟨_, s2, hun, ?_, ?_, hoff.2, rfl, rfl, hd2, hpool2, hget2, hdoc2⟩
  · simp only [RuleEngineService.PoolGet, KVMap.Load_Delete_self]
  · simp only [RuleEngineService.Get]
    exact dao_Get_put _ _ _ _

/-- Undeploying and deploying the running chain `"c1"` of the sample service. -/
theorem Undeploy_then_Deploy_witness :
    sampleDeployed.Get "c1" = .ok "def@T1" ∧
    sampleDeps.Unmarshal "def@T1" = .ok (sampleAlice.fillAdditionalInfo sampleDef "T1") ∧
    ∃ s1 s2,
      RuleEngineService.Undeploy sampleDeps sampleDeployed "c1" = (s1, none) ∧
      s1.PoolGet "c1" = (none, false) ∧
      s1.Get "c1" = .ok "off@T1" ∧
      RuleEngineService.Deploy sampleDeps s1 "c1" "T2" = (s2, none) ∧
      (∃ e, s2.PoolGet "c1" = (some e, true)) ∧
      s2.Get "c1" = .ok "def@T2" := by
  obtain ⟨s1, s2, h1, h2, h3, _, _, _, h4, h5, h6, _⟩ :=
    Undeploy_then_Deploy sampleDeps sampleDeployed "c1" "T2" "def@T1" "off@T1" "def@T1" "def@T2"
      (sampleAlice.fillAdditionalInfo sampleDef "T1") (by decide) (by decide)
      ⟨by decide, by decide⟩ ⟨by decide, by decide⟩ ⟨by decide, by decide⟩
      (fun _ => ⟨sampleAlice.fillAdditionalInfo sampleDef "T1", by simp [sampleDeps]; decide⟩)
      (fun tr b => sampleDeps_writes_c1 tr _ b)
  exact ⟨by decide, by decide, s1, s2, h1, h2, h3, h4, h5, h6⟩

/-! ### The bounded trace buffer -/

/-- C16: with a recorder created for the maximum `m > 0`, after any sequence of
events was recorded the buffer of a node holds the last `min m n` of the `n`
events recorded for that node, in recording order, so never more than `m`.  The
service creates its recorder with the configured `MaxNodeLogSize`, or with 40
when that is 0. -/
theorem debug_buffer_bounded (m : Int) (hm : 0 < m)
    (evs : List (String × String × DebugData)) (c n : String) :
    ((NewRuleChainDebugData m).addAll evs).Get c n = lastEvents m.toNat (eventsOf c n evs) ∧
    (((NewRuleChainDebugData m).addAll evs).Get c n).length =
      min m.toNat (eventsOf c n evs).length ∧
    ((((NewRuleChainDebugData m).addAll evs).Get c n).length : Int) ≤ m ∧
    (∀ (env : Env) (hist : List String) (cfg : config.Config) (username : String)
        (svc : RuleEngineService),
      NewRuleEngineService env hist cfg username = .ok svc →
      svc.ruleChainDebugData =
        NewRuleChainDebugData (if cfg.MaxNodeLogSize = 0 then 40 else cfg.MaxNodeLogSize)) := by
  have hget := addAll_Get (NewRuleChainDebugData m) evs c n
    (by simp [RuleChainDebugData.Get, NewRuleChainDebugData, lastEvents, KVMap.Load])
  have h0 : (NewRuleChainDebugData m).Get c n = [] := rfl
  rw [h0, List.nil_append] at hget
  have hmax : (NewRuleChainDebugData m).MaxSize = m := rfl
  rw [hmax] at hget
  refine ⟨hget, ?_, ?_, ?_⟩
  · rw [hget, lastEvents_length]
  · rw [hget, lastEvents_length]
    have h1 : min m.toNat (eventsOf c n evs).length ≤ m.toNat := Nat.min_le_left _ _
    have h2 : ((m.toNat : Nat) : Int) = m := Int.toNat_of_nonneg (le_of_lt hm)
    omega
  · intro env hist cfg username svc h
    unfold NewRuleEngineService at h
    cases hd : env.NewRuleDao hist cfg with
    | err e => simp [hd] at h
    | ok ruleDao =>
      simp only [hd, Result.ok.injEq] at h
      rw [← h]

/-- The maximum 2 and the events `e1`, `e2`, `e3` recorded for node `n1`, with an
event of another node in between: the buffer of `n1` is `[e2, e3]`. -/
theorem debug_buffer_bounded_witness :
    (0 : Int) < 2 ∧
    ((NewRuleChainDebugData 2).addAll
        [("c1", "n1", sampleEvent "e1"), ("c1", "n1", sampleEvent "e2"),
         ("c1", "n2", sampleEvent "x"), ("c1", "n1", sampleEvent "e3")]).Get "c1" "n1" =
      [sampleEvent "e2", sampleEvent "e3"] ∧
    NewRuleEngineService sampleEnv [] ⟨"data", 0, false⟩ "alice" = .ok sampleAlice ∧
    sampleAlice.ruleChainDebugData = NewRuleChainDebugData 40 :=
  ⟨by decide,
   (debug_buffer_bounded 2 (by decide)
      [("c1", "n1", sampleEvent "e1"), ("c1", "n1", sampleEvent "e2"),
       ("c1", "n2", sampleEvent "x"), ("c1", "n1", sampleEvent "e3")] "c1" "n1").1,
   by decide,
   (debug_buffer_bounded 2 (by decide) [] "c1" "n1").2.2.2 sampleEnv []
      ⟨"data", 0, false⟩ "alice" sampleAlice (by decide)⟩

/-! ### Debug hook and observers -/

/-- C17: the installed debug hook makes one call to the recorder, with the event
whose error text is the message of the error or empty without one, and after it
one dispatch to each observer registered for the chain id of the event, none to
the others (a log line comes first when `Debug` is set).  `AddOnDebugObserver`
with a subscriber id in use keeps the set of subscriber ids and puts the new
registration in place of the old one; `RemoveOnDebugObserver` removes that
subscriber and leaves every other one. -/
theorem OnDebug_hook_spec (s : RuleEngineService)
    (chainId flowType nodeId msg relationType : String) (err : Option Error) (nowMilli : Int) :
    (RuleEngineService.InitRuleGo.OnDebug s chainId flowType nodeId msg relationType err
        nowMilli).effects =
      s.effects ++
        (if s.config.Debug = true
          then [Effect.Printf "chainId=%s,flowType=%s,nodeId=%s,data=%s,err=%s"] else []) ++
        [Effect.DebugAdd chainId nodeId
          { Ts := nowMilli, NodeId := nodeId, FlowType := flowType, Msg := msg,
            RelationType := relationType,
            Err := match err with
              | some e => e.msg
              | none => "" }] ++
        (s.onDebugObserver.filter (fun o => decide (o.2.chainId = chainId))).map
          (fun o => Effect.Notify o.2 chainId flowType nodeId msg relationType err) ∧
    (RuleEngineService.InitRuleGo.OnDebug s chainId flowType nodeId msg relationType err
        nowMilli).ruleChainDebugData =
      s.ruleChainDebugData.Add chainId nodeId
        { Ts := nowMilli, NodeId := nodeId, FlowType := flowType, Msg := msg,
          RelationType := relationType,
          Err := match err with
            | some e => e.msg
            | none => "" } ∧
    (∀ c clientId fn,
      KVMap.Load (s.AddOnDebugObserver c clientId fn).onDebugObserver clientId =
        some { chainId := c, clientId := clientId, fn := fn } ∧
      (clientId ∈ KVMap.keys s.onDebugObserver →
        KVMap.keys (s.AddOnDebugObserver c clientId fn).onDebugObserver =
          KVMap.keys s.onDebugObserver) ∧
      ∀ other, other ≠ clientId →
        KVMap.Load (s.AddOnDebugObserver c clientId fn).onDebugObserver other =
          KVMap.Load s.onDebugObserver other) ∧
    (∀ clientId,
      KVMap.Load (s.RemoveOnDebugObserver clientId).onDebugObserver clientId = none ∧
      ∀ other, other ≠ clientId →
        KVMap.Load (s.RemoveOnDebugObserver clientId).onDebugObserver other =
          KVMap.Load s.onDebugObserver other) := by
  refine ⟨?_, ?_, fun c clientId fn => ⟨KVMap.Load_Store_self _ _ _, fun hmem => ?_,
    fun other ho => KVMap.Load_Store_ne _ _ _ _ ho⟩,
    fun clientId => ⟨KVMap.Load_Delete_self _ _, fun other ho => KVMap.Load_Delete_ne _ _ _ ho⟩⟩
  · simp only [RuleEngineService.InitRuleGo.OnDebug, RuleEngineService.OnDebug,
      OnDebug_loop_eq]
    split_ifs <;> simp
  · simp only [RuleEngineService.InitRuleGo.OnDebug, RuleEngineService.OnDebug]
    split_ifs <;> rfl
  · simp only [RuleEngineService.AddOnDebugObserver, KVMap.keys_Store, if_pos hmem]

/-- Two observers of chain `"c1"` and one of `"c2"`; an event of `"c1"` that
carries an error. -/
theorem OnDebug_hook_spec_witness :
    (RuleEngineService.InitRuleGo.OnDebug sampleObserved "c1" "OUT" "n1" "payload" "Failure"
        (some ⟨"boom"⟩) 7).effects =
      [Effect.DebugAdd "c1" "n1" ⟨7, "n1", "OUT", "payload", "Failure", "boom"⟩,
       Effect.Notify ⟨"c1", "ws-a", "fnA"⟩ "c1" "OUT" "n1" "payload" "Failure" (some ⟨"boom"⟩),
       Effect.Notify ⟨"c1", "ws-c", "fnC"⟩ "c1" "OUT" "n1" "payload" "Failure" (some ⟨"boom"⟩)] ∧
    "ws-a" ∈ KVMap.keys sampleObserved.onDebugObserver ∧
    KVMap.keys (sampleObserved.AddOnDebugObserver "c2" "ws-a" "fnA2").onDebugObserver =
      KVMap.keys sampleObserved.onDebugObserver ∧
    KVMap.Load (sampleObserved.AddOnDebugObserver "c2" "ws-a" "fnA2").onDebugObserver "ws-a" =
      some ⟨"c2", "ws-a", "fnA2"⟩ ∧
    KVMap.Load (sampleObserved.RemoveOnDebugObserver "ws-a").onDebugObserver "ws-b" =
      KVMap.Load sampleObserved.onDebugObserver "ws-b" :=
  ⟨(OnDebug_hook_spec sampleObserved "c1" "OUT" "n1" "payload" "Failure"
      (some ⟨"boom"⟩) 7).1,
   by decide,
   ((OnDebug_hook_spec sampleObserved "c1" "OUT" "n1" "payload" "Failure" none 0).2.2.1
      "c2" "ws-a" "fnA2").2.1 (by decide),
   ((OnDebug_hook_spec sampleObserved "c1" "OUT" "n1" "payload" "Failure" none 0).2.2.1
      "c2" "ws-a" "fnA2").1,
   ((OnDebug_hook_spec sampleObserved "c1" "OUT" "n1" "payload" "Failure" none 0).2.2.2
      "ws-a").2 "ws-b" (by decide)⟩

/-! ### Stamping the additional info -/

/-- C18: `fillAdditionalInfo` leaves a map `info` in which `updateTime` is the
clock reading, the username entry is the tenant of the service, `createTime` is
the entry that was there or, when there was none, the clock reading, and every
other key holds what it held; a nil map gives the fresh map of these three
entries.  A second application keeps the `createTime` of the first and stamps
its own `updateTime`. -/
theorem fillAdditionalInfo_spec (s : RuleEngineService) (d : types.RuleChain)
    (nowStr : String) :
    ∃ info, (s.fillAdditionalInfo d nowStr).RuleChain.AdditionalInfo = some info ∧
      KVMap.Load info "updateTime" = some nowStr ∧
      KVMap.Load info constants.KeyUsername = some s.username ∧
      (∀ c, KVMap.Load (d.RuleChain.AdditionalInfo.getD []) "createTime" = some c →
        KVMap.Load info "createTime" = some c) ∧
      (KVMap.Load (d.RuleChain.AdditionalInfo.getD []) "createTime" = none →
        KVMap.Load info "createTime" = some nowStr) ∧
      (∀ k, k ≠ "createTime" → k ≠ "updateTime" → k ≠ constants.KeyUsername →
        KVMap.Load info k = KVMap.Load (d.RuleChain.AdditionalInfo.getD []) k) ∧
      (d.RuleChain.AdditionalInfo = none →
        info = [(constants.KeyUsername, s.username), ("createTime", nowStr),
                ("updateTime", nowStr)]) ∧
      (∀ later, ∃ info2,
        (s.fillAdditionalInfo (s.fillAdditionalInfo d nowStr) later).RuleChain.AdditionalInfo =
          some info2 ∧
        KVMap.Load info2 "createTime" = KVMap.Load info "createTime" ∧
        KVMap.Load info2 "updateTime" = some later) := by
  obtain ⟨info, hinfo, hup, huser, hcreate, hother⟩ := fillAdditionalInfo_Load s d nowStr
  refine ⟨info, hinfo, hup, huser, ?_, ?_, hother, ?_, ?_⟩
  · intro c hc
    rw [hcreate, hc]
  · intro hc
    rw [hcreate, hc]
  · intro hnil
    have h := fillAdditionalInfo_info s d nowStr
    rw [hinfo, hnil] at h
    rw [Option.some.inj h]
    rfl
  · intro later
    obtain ⟨info2, hinfo2, hup2, _, hcreate2, _⟩ :=
      fillAdditionalInfo_Load s (s.fillAdditionalInfo d nowStr) later
    refine ⟨info2, hinfo2, ?_, hup2⟩
    rw [hcreate2, hinfo]
    simp only [Option.getD_some]
    cases hc : KVMap.Load info "createTime" with
    | some c => rfl
    | none =>
      rw [hcreate] at hc
      cases h0 : KVMap.Load (d.RuleChain.AdditionalInfo.getD []) "createTime" with
      | some c => rw [h0] at hc; cases hc
      | none => rw [h0] at hc; cases hc

/-- A definition without additional info, stamped for `"alice"` at two times. -/
theorem fillAdditionalInfo_spec_witness :
    sampleDef.RuleChain.AdditionalInfo = none ∧
    ∃ info, (sampleAlice.fillAdditionalInfo sampleDef "2024/05/01 10:00:00").RuleChain.AdditionalInfo
        = some info ∧
      info = [("username", "alice"), ("createTime", "2024/05/01 10:00:00"),
              ("updateTime", "2024/05/01 10:00:00")] ∧
      ∃ info2,
        (sampleAlice.fillAdditionalInfo
          (sampleAlice.fillAdditionalInfo sampleDef "2024/05/01 10:00:00")
          "2024/05/02 11:00:00").RuleChain.AdditionalInfo = some info2 ∧
        KVMap.Load info2 "createTime" = KVMap.Load info "createTime" ∧
        KVMap.Load info2 "updateTime" = some "2024/05/02 11:00:00" := by
  obtain ⟨info, hinfo, _, _, _, _, _, hnil, htwice⟩ :=
    fillAdditionalInfo_spec sampleAlice sampleDef "2024/05/01 10:00:00"
  exact ⟨rfl, info, hinfo, hnil rfl, htwice "2024/05/02 11:00:00"⟩

/-! ### Loading the scripts of a tenant -/

/-- C19 fails as stated: the folder holds `bad.js`, which does not compile, and
`loadJs` returns a nil error all the same: the compile error is logged, the
other script is registered, and `InitRuleGo` goes on. -/
theorem loadJs_compile_error_not_reported :
    sampleJs.GetFilePaths "ws/js/*.js" = .ok ["ws/js/bad.js", "ws/js/ok.js"] ∧
    sampleJs.Compile "ws/js/bad.js" "function(" = .err ⟨"SyntaxError"⟩ ∧
    RuleEngineService.loadJs sampleJs sampleAlice "ws/js" =
      ({ sampleAlice with
         effects := [Effect.Printf "Compile js file=%s err=%s",
                     Effect.RegisterUdf "ok.js" "compiled:ok"] }, none) ∧
    (RuleEngineService.InitRuleGo.loadJsStep sampleJs sampleAlice "ws").isSome = true := by
  decide

/-- C19, amended: `loadJs` returns a nil error whenever the folder can be
listed, also when a script in it fails to compile: such a file adds a log line
and nothing else, and the files after it are still loaded; `InitRuleGo` then goes
on.  `loadJs` returns an error only when listing the folder fails, and that
error ends `InitRuleGo` in `logger.Fatal`. -/
theorem loadJs_spec (js : JsEnv) (s : RuleEngineService) (folderPath : String) :
    (∀ paths, js.GetFilePaths (folderPath ++ "/*.js") = .ok paths →
      RuleEngineService.loadJs js s folderPath =
        (RuleEngineService.loadJs.loop js s paths, none)) ∧
    (∀ err, js.GetFilePaths (folderPath ++ "/*.js") = .err err →
      RuleEngineService.loadJs js s folderPath = (s, some err)) ∧
    (∀ (s0 : RuleEngineService) file b e rest,
      js.LoadFile file = some b → js.Compile file b = .err e →
      RuleEngineService.loadJs.loop js s0 (file :: rest) =
        RuleEngineService.loadJs.loop js
          { s0 with effects := s0.effects ++ [Effect.Printf "Compile js file=%s err=%s"] }
          rest) ∧
    (∀ workspacePath paths,
      js.GetFilePaths (js.Join workspacePath "js" ++ "/*.js") = .ok paths →
      RuleEngineService.InitRuleGo.loadJsStep js s workspacePath =
        some (RuleEngineService.loadJs.loop js s paths)) ∧
    (∀ workspacePath err,
      js.GetFilePaths (js.Join workspacePath "js" ++ "/*.js") = .err err →
      RuleEngineService.InitRuleGo.loadJsStep js s workspacePath = none) := by
  refine ⟨fun paths h => ?_, fun err h => ?_, fun s0 file b e rest hb he => ?_,
    fun w paths h => ?_, fun w err h => ?_⟩
  · simp only [RuleEngineService.loadJs, h]
  · simp only [RuleEngineService.loadJs, h]
  · simp only [RuleEngineService.loadJs.loop, hb, he]
  · simp only [RuleEngineService.InitRuleGo.loadJsStep, RuleEngineService.loadJs, h]
  · simp only [RuleEngineService.InitRuleGo.loadJsStep, RuleEngineService.loadJs, h]

/-- The sample folder with a script that does not compile, and a folder that
cannot be listed. -/
theorem loadJs_spec_witness :
    sampleJs.GetFilePaths ("ws/js" ++ "/*.js") = .ok ["ws/js/bad.js", "ws/js/ok.js"] ∧
    RuleEngineService.loadJs sampleJs sampleAlice "ws/js" =
      (RuleEngineService.loadJs.loop sampleJs sampleAlice ["ws/js/bad.js", "ws/js/ok.js"],
       none) ∧
    sampleJs.GetFilePaths (sampleJs.Join "nowhere" "js" ++ "/*.js") =
      .err ⟨"syntax error in pattern"⟩ ∧
    RuleEngineService.InitRuleGo.loadJsStep sampleJs sampleAlice "nowhere" = none :=
  ⟨by decide,
   (loadJs_spec sampleJs sampleAlice "ws/js").1 _ (by decide),
   by decide,
   (loadJs_spec sampleJs sampleAlice "ws/js").2.2.2.2 "nowhere" ⟨"syntax error in pattern"⟩
     (by decide)⟩

end service

end rulego
